import Mathlib

/-!
A verification development for rubber's incremental build core.

This file gives a shallow embedding, in Lean, of the three core pieces of the
rubber build system and proves the spec-level properties about them:

* the content-addressed snapshot store (`src/contents.py`),
* the recursive dependency engine with its patience loop and the on-disk
  snapshot cache (`src/depend.py`),
* the compiler-log analysis state machine (`src/converters/latex.py`,
  class `LogCheck`).

Conventions of the embedding:

* Python mutable object state becomes explicit state records threaded through
  the functions; exceptions (failed `assert` statements, `IndexError`) become
  `Except`/`Option` results.
* File paths are `String`s; file contents are byte lists (`List Nat`).
* The MD5 digest of `_checksum_algorithm` is modelled as a deterministic
  16-byte function of the file's contents.  The engine relies only on the
  digest being determined by the contents, 16 bytes wide, and distinct from
  the reserved `NO_SUCH_FILE` value; per the spec, hash collisions are
  treated as impossible.
* Recursion in `Node.make` is bounded by explicit fuel; a dedicated result
  constructor marks fuel exhaustion, and a theorem shows that fuel equal to
  the number of not-currently-making nodes always suffices, so the fuel is an
  artifact of the embedding, not of the code.
-/

namespace Rubber

/-- Pointwise update of a function map, used to model attribute assignment. -/
def upd {α β : Type} [DecidableEq α] (f : α → β) (a : α) (b : β) : α → β :=
  fun x => if x = a then b else f x

namespace Contents

/-- File contents as a sequence of bytes. -/
abbrev Bytes := List Nat

/-- Checksums are byte strings (contents.py line 97: "Md5 values are
represented as bytes"). -/
abbrev Checksum := List Nat

/-- contents.py line 98: `NO_SUCH_FILE = bytes ()`, the empty byte string. -/
def NO_SUCH_FILE : Checksum := []

/-- Model of `_checksum_algorithm` (contents.py lines 100-107): the MD5
digest of the file's bytes.  Modelled as a deterministic 16-byte digest of
the contents; the engine only relies on the digest being a function of the
contents, having 16 bytes each below 256, and never being empty (so it never
collides with `NO_SUCH_FILE`). -/
def _checksum_algorithm (contents : Bytes) : Checksum :=
  (contents.map (fun b => b % 256) ++ List.replicate 16 0).take 16

/-- The mutable state of a `_File` instance: `_checksum` (`none` when the
file has never been observed) and `_mtime` (meaningful only while
`_checksum` holds an actual digest). -/
structure FileState where
  checksum : Option Checksum
  mtime : Nat
deriving DecidableEq

/-- A `_File` as first created by `factory` (contents.py lines 23-30). -/
def freshFile : FileState := ⟨none, 0⟩

/-- What one `snapshot` call produces: the updated `_File` state, the
returned checksum, and how many times the file's bytes were read
(i.e. how many times `_checksum_algorithm` ran). -/
structure SnapResult where
  state : FileState
  result : Checksum
  reads : Nat
deriving DecidableEq

/-- Model of `_File.snapshot` (contents.py lines 42-95).  The parameter `fs`
is the file system's current view of this path: `some (mtime, contents)` when
the path exists, `none` otherwise.  A failed `assert` becomes `.error`. -/
def snapshot (fs : Option (Nat × Bytes)) (st : FileState) :
    Except String SnapResult :=
  match fs with
  | some (mtime, contents) =>
    match st.checksum with
    | none =>
      -- "contents are now watched"
      let c := _checksum_algorithm contents
      .ok ⟨⟨some c, mtime⟩, c, 1⟩
    | some prev =>
      if prev = NO_SUCH_FILE then
        -- "has been created"
        let c := _checksum_algorithm contents
        .ok ⟨⟨some c, mtime⟩, c, 1⟩
      else if st.mtime = mtime then
        -- "has the same mtime": no re-read
        .ok ⟨st, prev, 0⟩
      else if st.mtime < mtime then
        -- rewritten: update mtime, recompute the checksum
        let c := _checksum_algorithm contents
        if c = prev then .ok ⟨⟨some prev, mtime⟩, prev, 1⟩
        else .ok ⟨⟨some c, mtime⟩, c, 1⟩
      else
        -- line 81: assert self._mtime < mtime, 'mtime decreased'
        .error "mtime decreased"
  | none =>
    match st.checksum with
    | none =>
      -- "will be watched once created"
      .ok ⟨⟨some NO_SUCH_FILE, st.mtime⟩, NO_SUCH_FILE, 0⟩
    | some prev =>
      if prev = NO_SUCH_FILE then
        -- "does not exist yet"
        .ok ⟨st, NO_SUCH_FILE, 0⟩
      else
        -- line 93: assert self._checksum == NO_SUCH_FILE, 'vanished'
        .error "vanished"

/-- contents.py line 112: the common length of all textual checksum
encodings. -/
def cs_str_len : Nat := 32

/-- The reserved fixed-width literal used by `cs2str` for `NO_SUCH_FILE`
(contents.py line 115): the text `No such file` padded with spaces to 32
characters. -/
def missingLiteral : String := "No such file                    "

/-- One hexadecimal digit as produced by Python's `'{:02X}'` format
(uppercase). -/
def hexDigit (n : Nat) : Char :=
  if n < 10 then Char.ofNat (48 + n) else Char.ofNat (55 + n)

/-- The two-character uppercase hexadecimal rendition of one byte. -/
def byte2hex (b : Nat) : List Char := [hexDigit (b / 16), hexDigit (b % 16)]

/-- Model of `cs2str` (contents.py lines 113-119): fixed-width textual
encoding of a checksum. -/
def cs2str (c : Checksum) : String :=
  if c = NO_SUCH_FILE then missingLiteral
  else ⟨c.flatMap byte2hex⟩

/-- Value of one hexadecimal character, as `int (-, base=16)` computes it
for the characters `cs2str` can produce. -/
def hexVal (ch : Char) : Nat :=
  if 65 ≤ ch.toNat then ch.toNat - 55 else ch.toNat - 48

/-- Parse consecutive two-character groups back into bytes (the generator
expression in `str2cs`, contents.py lines 125-126). -/
def hexPairs : List Char → List Nat
  | a :: b :: rest => (hexVal a * 16 + hexVal b) :: hexPairs rest
  | _ => []

/-- Model of `str2cs` (contents.py lines 120-126). -/
def str2cs (s : String) : Checksum :=
  if s = missingLiteral then NO_SUCH_FILE
  else hexPairs s.data

end Contents

namespace Depend

open Contents

-- Constants for the return value of Node.make (depend.py lines 15-17).

def ERROR : Nat := 0
def UNCHANGED : Nat := 1
def CHANGED : Nat := 2

/-- File paths. -/
abbrev Path := String

/-- The external file system: `some (mtime, contents)` for an existing file,
`none` for a missing one. -/
abbrev Fs := Path → Option (Nat × Bytes)

/-- The static shape of the dependency set and its recipes:

* `producer` is `rubber.contents._File._producer` — which node, if any,
  produces a path (`add_product` registers it);
* `sources n` is `Node.sources` of node `n` as a path list (the source order
  never changes during a build);
* `primary n` is `Node.primary_product ()`;
* `isLaTeXDep n` models the `isinstance (self, LaTeXDep)` test of
  depend.py line 214;
* `run n` is node `n`'s `Node.run` override: it reads and rewrites the file
  system and reports success.  Node ids are `0 ≤ n < numNodes`. -/
structure Config where
  numNodes : Nat
  producer : Path → Option Nat
  sources : Nat → List Path
  primary : Nat → Path
  isLaTeXDep : Nat → Bool
  run : Nat → Fs → Bool × Fs

/-- The mutable state of a build: the file system, the `_File` snapshot memo
per path, and per node the `snapshots`, `making` and `failed_dep` attributes.
`runCount` instruments how often each node's `run` was invoked, and
`settleFailed` records nodes for which the "file contents does not seem to
settle" diagnostic (depend.py line 228) was emitted. -/
@[ext]
structure World where
  fs : Fs
  files : Path → FileState
  snapshots : Nat → Option (List Checksum)
  making : Nat → Bool
  failed_dep : Nat → Option Nat
  runCount : Nat → Nat
  settleFailed : List Nat

/-- Result of a `make` call: `.ok rv` is a normal return (`rv` one of
`ERROR`, `UNCHANGED`, `CHANGED`), `.exn` is a Python exception propagating
out (a failed `assert`), and `.fuel` marks exhaustion of the embedding's
recursion fuel (shown elsewhere never to occur with enough fuel). -/
inductive MakeResult
  | ok (rv : Nat)
  | exn (msg : String)
  | fuel
deriving DecidableEq

/-- `source.snapshot ()` on the world: runs the snapshot store on the path's
memo state and stores the updated memo. -/
def wsnapshot (w : World) (p : Path) : World × Except String Checksum :=
  match Contents.snapshot (w.fs p) (w.files p) with
  | .ok r => ({ w with files := upd w.files p r.state }, .ok r.result)
  | .error e => (w, .error e)

/-- `tuple (s.snapshot () for s in self.sources)` (depend.py lines 195
and 212), threading the `_File` memo updates left to right; a raised
assertion aborts the tuple construction but keeps the memo updates made so
far. -/
def snapshotAll (w : World) : List Path → World × Except String (List Checksum)
  | [] => (w, .ok [])
  | p :: ps =>
    match wsnapshot w p with
    | (w1, .ok c) =>
      match snapshotAll w1 ps with
      | (w2, .ok cs) => (w2, .ok (c :: cs))
      | (w2, .error e) => (w2, .error e)
    | (w1, .error e) => (w1, .error e)

/-- The comparison loop of depend.py lines 198-210: compare the recorded
snapshot of each source against a fresh `snapshot ()`, stopping at the first
difference (`break`); returns `true` when some source is outdated.  The
recorded list and the source list always have equal length in reachable
states (records are built by `snapshotAll` over the same source list). -/
def snapshotsDiffer (w : World) : List Checksum → List Path → World × Except String Bool
  | r :: rs, p :: ps =>
    (match wsnapshot w p with
     | (w1, .ok c) =>
       if r = c then snapshotsDiffer w1 rs ps
       else (w1, .ok true)
     | (w1, .error e) => (w1, .error e))
  | _, _ => (w, .ok false)

/-- The type of the recursive `make` entry point used for dependencies. -/
abbrev Mk := World → Nat → World × MakeResult

/-- The "make our sources" loop of `real_make` (depend.py lines 172-190) for
node `n`.  A leaf source (no producer) is skipped; a source whose producer is
already being made is a pruned cyclic dependency and is skipped; otherwise
the producer is made recursively.  An `ERROR` from a child copies the
child's `failed_dep` and returns `ERROR` immediately, processing no further
sources; a `CHANGED` child upgrades the accumulator.  By convention `.ok rv`
with `rv = ERROR` is that early exit: the accumulator passed in is only ever
`UNCHANGED` or `CHANGED`. -/
def makeSources (cfg : Config) (mk : Mk) (n : Nat) :
    World → List Path → Nat → World × MakeResult
  | w, [], rv => (w, .ok rv)
  | w, p :: rest, rv =>
    match cfg.producer p with
    | none => makeSources cfg mk n w rest rv
    | some m =>
      if w.making m then makeSources cfg mk n w rest rv
      else
        match mk w m with
        | (w1, .ok srv) =>
          if srv = ERROR then
            ({ w1 with failed_dep := upd w1.failed_dep n (w1.failed_dep m) }, .ok ERROR)
          else if srv = CHANGED then makeSources cfg mk n w1 rest CHANGED
          else makeSources cfg mk n w1 rest rv
        | (w1, r) => (w1, r)

/-- Outcome of the snapshot-comparison phase of one `real_make` iteration
(depend.py lines 192-212). -/
inductive SnapOut
  | unchanged (w : World)
  | rebuilt (w : World)
  | raised (w : World) (e : String)

/-- The world carried by a `SnapOut`. -/
def SnapOut.world : SnapOut → World
  | .unchanged w => w
  | .rebuilt w => w
  | .raised w _ => w

/-- The snapshot-comparison phase: on a first attempt (`snapshots is None`)
record a snapshot of every source and build; otherwise compare against the
record, return "unchanged" when no source is outdated, and otherwise update
the record and build. -/
def snapPhase (w : World) (n : Nat) (srcs : List Path) : SnapOut :=
  match w.snapshots n with
  | none =>
    (match snapshotAll w srcs with
     | (w1, .ok cs) => .rebuilt { w1 with snapshots := upd w1.snapshots n (some cs) }
     | (w1, .error e) => .raised w1 e)
  | some recorded =>
    (match snapshotsDiffer w recorded srcs with
     | (w1, .ok false) => .unchanged w1
     | (w1, .ok true) =>
       (match snapshotAll w1 srcs with
        | (w2, .ok cs) => .rebuilt { w2 with snapshots := upd w2.snapshots n (some cs) }
        | (w2, .error e) => .raised w2 e)
     | (w1, .error e) => .raised w1 e)

/-- Outcome of the build step of one `real_make` iteration. -/
inductive IterOut
  | next (w : World)
  | stop (w : World) (r : MakeResult)

/-- The world carried by an `IterOut`. -/
def IterOut.world : IterOut → World
  | .next w => w
  | .stop w _ => w

/-- The build step (depend.py lines 214-225): a non-`LaTeXDep` node whose
sources do not all exist defers without running; otherwise `run ()` is
invoked — on failure `failed_dep` becomes the node itself, the snapshot
record is cleared, and the iteration stops with `ERROR`; on success (or
deferral) the patience loop continues with `rv = CHANGED`. -/
def runPhase (cfg : Config) (w : World) (n : Nat) : IterOut :=
  if !cfg.isLaTeXDep n && !((cfg.sources n).all fun p => (w.fs p).isSome) then
    .next w
  else
    match cfg.run n w.fs with
    | (ok, fs') =>
      let w1 := { w with fs := fs', runCount := upd w.runCount n (w.runCount n + 1) }
      if ok then .next w1
      else
        .stop { w1 with failed_dep := upd w1.failed_dep n (some n),
                        snapshots := upd w1.snapshots n none } (.ok ERROR)

/-- `Node.real_make` (depend.py lines 165-230): the patience loop, counted
down from 5.  When patience is exhausted the node gets the "contents does
not seem to settle" diagnostic, `failed_dep` set to itself, and `ERROR`. -/
def realMake (cfg : Config) (mk : Mk) (n : Nat) :
    Nat → World → Nat → World × MakeResult
  | 0, w, _ =>
    ({ w with failed_dep := upd w.failed_dep n (some n),
              settleFailed := n :: w.settleFailed }, .ok ERROR)
  | patience + 1, w, rv =>
    match makeSources cfg mk n w (cfg.sources n) rv with
    | (w1, .ok rv1) =>
      if rv1 = ERROR then (w1, .ok ERROR)
      else
        match snapPhase w1 n (cfg.sources n) with
        | .unchanged w2 => (w2, .ok rv1)
        | .raised w2 e => (w2, .exn e)
        | .rebuilt w2 =>
          match runPhase cfg w2 n with
          | .next w3 => realMake cfg mk n patience w3 CHANGED
          | .stop w3 r => (w3, r)
    | (w1, .exn e) => (w1, .exn e)
    | (w1, .fuel) => (w1, .fuel)

/-- `Node.make` (depend.py lines 140-163), with explicit recursion fuel.
The entry assertion `assert not self.making` raises when the node is already
being made.  `making` is set for the duration of `real_make` and cleared
when `real_make` returns normally — an exception propagates out without
clearing it (the code has no `try`/`finally`).  The exit assertions check
`failed_dep` on `ERROR` and reset it to `None` after a successful make. -/
def make (cfg : Config) : Nat → Mk
  | 0 => fun w _ => (w, .fuel)
  | fuel + 1 => fun w n =>
    if w.making n then (w, .exn "assert not self.making")
    else
      let w1 := { w with making := upd w.making n true }
      match realMake cfg (make cfg fuel) n 5 w1 UNCHANGED with
      | (w2, .ok rv) =>
        let w3 := { w2 with making := upd w2.making n false }
        if rv = ERROR then
          if (w3.failed_dep n).isSome then (w3, .ok rv)
          else (w3, .exn "assert self.failed_dep is not None")
        else
          if (w3.snapshots n).isSome then
            ({ w3 with failed_dep := upd w3.failed_dep n none }, .ok rv)
          else (w3, .exn "assert self.snapshots is not None")
      | (w2, .exn e) => (w2, .exn e)
      | (w2, .fuel) => (w2, .fuel)

/-- The source loop of `Node.all_producers` (depend.py lines 100-106): for
each source that has a producer not yet in `seen`, recurse via `recf`.
`recf` is the traversal at smaller fuel; it returns the yielded nodes and
the grown `seen` set. -/
def allProducersSrcs (cfg : Config)
    (recf : List Nat → Nat → List Nat × List Nat) :
    List Nat → List Path → List Nat × List Nat
  | seen, [] => ([], seen)
  | seen, p :: ps =>
    match cfg.producer p with
    | none => allProducersSrcs cfg recf seen ps
    | some m =>
      if m ∈ seen then allProducersSrcs cfg recf seen ps
      else
        let (ys, seen1) := recf seen m
        let (ys2, seen2) := allProducersSrcs cfg recf seen1 ps
        (ys ++ ys2, seen2)

/-- `Node.all_producers` (depend.py lines 94-107): preorder depth-first walk
of the producers reachable from a node, each visited once (`seen`).  The
fuel is an embedding artifact; `numNodes + 1` always suffices because every
recursive call happens on a node freshly added to `seen`. -/
def allProducersRec (cfg : Config) : Nat → List Nat → Nat → List Nat × List Nat
  | 0, seen, _ => ([], seen)
  | fuel + 1, seen, n =>
    let (ys, seen') :=
      allProducersSrcs cfg (allProducersRec cfg fuel) (n :: seen) (cfg.sources n)
    (n :: ys, seen')

/-- The node list `save_cache` walks, starting from the final node. -/
def all_producers (cfg : Config) (final : Nat) : List Nat :=
  (allProducersRec cfg (cfg.numNodes + 1) [] final).1

/-- The cache lines `save_cache` writes for one node (depend.py lines
23-31): nothing when the node has no snapshot record, otherwise the primary
product path followed by one indented line per source holding the
fixed-width checksum and the source path.  Each string is one line of the
cache file (the `'\n'` terminators of the code delimit the list items). -/
def nodeCacheLines (cfg : Config) (w : World) (n : Nat) : List String :=
  match w.snapshots n with
  | none => []
  | some snaps =>
    cfg.primary n ::
      List.zipWith (fun c p => "  " ++ cs2str c ++ " " ++ p) snaps (cfg.sources n)

/-- `save_cache` (depend.py lines 19-31) as the list of lines written. -/
def save_cache (cfg : Config) (w : World) (final : Nat) : List String :=
  (all_producers cfg final).flatMap (nodeCacheLines cfg w)

/-- The record-parsing loop of `load_cache` (depend.py lines 36-47): `prod`
is the product path of the record being read, `acc` its source lines so far
(reversed).  A line starting with two spaces holds a fixed-width checksum at
characters 2..33 and the source path from character 35 on; any other line
starts the next record. -/
def parseCacheAux (prod : Path) (acc : List (Checksum × Path)) :
    List String → List (Path × List Checksum × List Path)
  | [] => [(prod, acc.reverse.map Prod.fst, acc.reverse.map Prod.snd)]
  | line :: rest =>
    if ("  ".data).isPrefixOf line.data then
      parseCacheAux prod
        ((str2cs ⟨(line.data.drop 2).take cs_str_len⟩,
          (⟨line.data.drop (2 + cs_str_len + 1)⟩ : String)) :: acc) rest
    else
      (prod, acc.reverse.map Prod.fst, acc.reverse.map Prod.snd) ::
        parseCacheAux line [] rest

/-- All records of a cache file; the first line is always a product header
(`load_cache` reads it before entering the loop). -/
def parseCacheEntries : List String → List (Path × List Checksum × List Path)
  | [] => []
  | line :: rest => parseCacheAux line [] rest

/-- Installing one cache record (depend.py lines 48-60): skip when no node
currently produces the product, when the node's current source-path list
differs from the recorded one, or when the node already has a snapshot
record; otherwise install the recorded checksums as the node's record. -/
def applyCacheEntry (cfg : Config) (w : World) :
    Path × List Checksum × List Path → World
  | (product, snaps, srcs) =>
    match cfg.producer product with
    | none => w
    | some n =>
      if cfg.sources n ≠ srcs then w
      else if (w.snapshots n).isSome then w
      else { w with snapshots := upd w.snapshots n (some snaps) }

/-- `load_cache` (depend.py lines 33-60) over the lines of a cache file. -/
def load_cache (cfg : Config) (w : World) (lines : List String) : World :=
  (parseCacheEntries lines).foldl (applyCacheEntry cfg) w

end Depend

namespace Latex

/-- The success decision of `LaTeXDep.compile` (latex.py lines 1202-1215) as
a function of the four observations it makes in order: the external tool's
exit status being zero, `parse_log ()` succeeding, `log.errors ()`, and the
primary product being present on disk afterwards.  The call reports success
only when all four are favourable; in particular a zero exit status with a
missing output file is a failure. -/
def compile_ok (exitZero parseLogOk logHasErrors productExists : Bool) : Bool :=
  exitZero && (parseLogOk && (!logHasErrors && productExists))

/-- Characters of one log line. -/
abbrev Chars := List Char

/-- Interest flags of `LogCheck.parse` (latex.py line 215). -/
structure Flags where
  errors : Bool
  boxes : Bool
  refs : Bool
  warnings : Bool
deriving DecidableEq

/-- One diagnostic dictionary yielded by `LogCheck.parse`.  A Python dict
key that is absent and a key present with value `None` are both rendered as
`none`; the numeric groups (`line`, `last`, `page`) are parsed into `Nat`,
with an empty digit group rendered as `none`. -/
structure Diag where
  kind : String
  text : Option String
  code : Option String
  file : Option String
  line : Option Nat
  last : Option Nat
  pkg : Option String
  page : Option Nat
  macroName : Option String
  why : Option String
  ref : Option String
deriving DecidableEq

/-- A diagnostic with only its kind set. -/
def emptyDiag (kind : String) : Diag :=
  ⟨kind, none, none, none, none, none, none, none, none, none, none⟩

/-- Substring containment (Python's `str.find (-) != -1`). -/
def containsSub (s pat : Chars) : Bool :=
  match s with
  | [] => pat.isEmpty
  | _ :: rest => pat.isPrefixOf s || containsSub rest pat

/-- Rightmost index at which `pat` occurs in `s` (the way a greedy `.*`
before a literal selects the literal's last occurrence). -/
def lastSubIdx : Chars → Chars → Option Nat
  | [], pat => if pat.isEmpty then some 0 else none
  | c :: rest, pat =>
    match lastSubIdx rest pat with
    | some i => some (i + 1)
    | none => if pat.isPrefixOf (c :: rest) then some 0 else none

/-- Numeric value of a digit string. -/
def digitsToNat (ds : Chars) : Nat :=
  ds.foldl (fun acc c => acc * 10 + (c.toNat - 48)) 0

/-- A possibly-empty digit group: Python keeps the string, where the empty
string is falsy; rendered as `none` when empty. -/
def digitGroup (ds : Chars) : Option Nat :=
  if ds.isEmpty then none else some (digitsToNat ds)

/-- Strip a literal off the front, as a regex literal does. -/
def stripLit (lit : String) (s : Chars) : Option Chars :=
  if lit.data.isPrefixOf s then some (s.drop lit.data.length) else none

/-- Model of `re_line` (latex.py line 130),
`(l\.(?P<line>[0-9]+)( (?P<code>.*))?$|<\*>)`, matched at the line start.
Returns the `line` and `code` groups; the `<*>` alternative participates
with both groups absent. -/
def re_line_match (s : Chars) : Option (Option Nat × Option Chars) :=
  match stripLit "l." s with
  | some after =>
    let ds := after.takeWhile Char.isDigit
    let rest := after.drop ds.length
    if ds.isEmpty then none
    else
      match rest with
      | [] => some (some (digitsToNat ds), none)
      | ' ' :: code => some (some (digitsToNat ds), some code)
      | _ => none
  | none =>
    if ("<*>".data).isPrefixOf s then some (none, none) else none

/-- The scan for the rightmost control-sequence token of `re_cseq`
(latex.py line 131): a suffix beginning with `\` or `...` and containing no
space. -/
def cseqFind : Chars → Option Chars
  | [] => none
  | c :: rest =>
    match cseqFind rest with
    | some r => some r
    | none =>
      if (c = '\\' || ("...".data).isPrefixOf (c :: rest)) &&
         !(c :: rest).contains ' ' then
        some (c :: rest)
      else none

/-- Model of `re_cseq` (latex.py line 131),
`.*(?P<seq>(\\|\.\.\.)[^ ]*) ?$`: the greedy `.*` selects the rightmost
token start; at most one trailing space is tolerated. -/
def re_cseq_match (line : Chars) : Option Chars :=
  cseqFind (match line.getLast? with
            | some ' ' => line.dropLast
            | _ => line)

/-- Model of `re_macro` (latex.py line 132), `^(?P<macro>\\.*) ->`: a line
beginning with a backslash whose greedy group runs to the last ` ->`. -/
def reMacroMatch (line : Chars) : Option Chars :=
  match line with
  | '\\' :: _ =>
    (match lastSubIdx line (" ->".data) with
     | some i => some (line.take i)
     | none => none)
  | _ => none

/-- The scan of `re_page.findall` (latex.py line 133), `\[(?P<num>[0-9]+)\]`:
`some ds` is the digit run accumulated since an as-yet-unclosed `[`. -/
def pageNumsAux : Option Chars → Chars → List Nat
  | _, [] => []
  | none, c :: rest =>
    if c = '[' then pageNumsAux (some []) rest else pageNumsAux none rest
  | some ds, c :: rest =>
    if c.isDigit then pageNumsAux (some (ds.concat c)) rest
    else if c = ']' then
      (if ds.isEmpty then pageNumsAux none rest
       else digitsToNat ds :: pageNumsAux none rest)
    else if c = '[' then pageNumsAux (some []) rest
    else pageNumsAux none rest

/-- All page numbers mentioned on a line. -/
def pageNums (s : Chars) : List Nat := pageNumsAux none s

/-- `LogCheck.update_page` (latex.py lines 476-485): the page after the
line is one past the last page-break marker, or unchanged if there is
none. -/
def update_page (s : Chars) (before : Nat) : Nat :=
  match (pageNums s).getLast? with
  | none => before
  | some n => n + 1

/-- A character that can be part of a file name in `re_file`
(latex.py line 127): anything but space, newline, tab, parentheses and
braces. -/
def fileChar (c : Char) : Bool :=
  !(c = ' ' || c = '\x7b' || c = '\x7d' ||
    c = '\t' || c = '\n' || c = '(' || c = ')')

/-- The scan of `LogCheck.update_file` (latex.py lines 455-474) for the
`re_file` tokens, one character at a time.  `some acc` means an opening
parenthesis was just seen and the following file-name run is being
collected; the character ending the run is re-examined as a possible
parenthesis.  An opening parenthesis pushes the collected file name (the
head of the list is the stack top) and a closing parenthesis pops; popping
an empty stack is Python's `IndexError` (`none`). -/
def update_fileAux (stack : List (Option String)) (last : Option String) :
    Option Chars → Chars → Option (List (Option String) × Option String)
  | none, [] => some (stack, last)
  | none, '(' :: rest => update_fileAux stack last (some []) rest
  | none, ')' :: rest =>
    (match stack with
     | [] => none
     | top :: stack' => update_fileAux stack' top none rest)
  | none, _ :: rest => update_fileAux stack last none rest
  | some acc, [] =>
    some ((some (⟨acc⟩ : String)) :: stack, some (⟨acc⟩ : String))
  | some acc, c :: rest =>
    if fileChar c then update_fileAux stack last (some (acc.concat c)) rest
    else
      let f : String := ⟨acc⟩
      let stack1 := some f :: stack
      if c = '(' then update_fileAux stack1 (some f) (some []) rest
      else if c = ')' then
        (match stack1 with
         | [] => none
         | top :: stack' => update_fileAux stack' top none rest)
      else update_fileAux stack1 (some f) none rest

/-- `LogCheck.update_file` on one line. -/
def update_file (stack : List (Option String)) (last : Option String)
    (line : Chars) : Option (List (Option String) × Option String) :=
  update_fileAux stack last none line

/-- `pos[-1]`: the stack top; `none` is Python's `IndexError` on an empty
stack. -/
def stackTop : List (Option String) → Option (Option String)
  | [] => none
  | t :: _ => some t

/-- Model of `re_badbox` (latex.py line 128), `(Ov|Und)erfull \\[hv]box `,
matched at the line start. -/
def re_badbox_match (s : Chars) : Bool :=
  (["Overfull \\hbox ", "Overfull \\vbox ",
    "Underfull \\hbox ", "Underfull \\vbox "].any fun p => p.data.isPrefixOf s)

/-- Model of `re_rawbox` (latex.py line 129), `^\\[hv]box\(`. -/
def re_rawbox_match (s : Chars) : Bool :=
  (["\\hbox(", "\\vbox("].any fun p => p.data.isPrefixOf s)

/-- The tail of `re_atline` (latex.py lines 134-135) after the literal
` at line`: an optional `s`, a space, the possibly-empty `line` digits and
an optional `--`-separated `last` group. -/
def atlineAfter (t : Chars) : Option (Option Nat × Option Nat) :=
  let t1 := match t with
            | 's' :: r => r
            | _ => t
  match t1 with
  | ' ' :: t2 =>
    let ds := t2.takeWhile Char.isDigit
    let t3 := t2.drop ds.length
    let lastG := match stripLit "--" t3 with
                 | some t4 => digitGroup (t4.takeWhile Char.isDigit)
                 | none => none
    some (digitGroup ds, lastG)
  | _ => none

/-- One candidate start position for `re_atline`: the optional
` detected`/` in paragraph` alternative followed by ` at line`. -/
def atlineAt (s : Chars) : Option (Option Nat × Option Nat) :=
  match stripLit " detected at line" s with
  | some t => atlineAfter t
  | none =>
    match stripLit " in paragraph at line" s with
    | some t => atlineAfter t
    | none =>
      match stripLit " at line" s with
      | some t => atlineAfter t
      | none => none

/-- `re_atline.search`: leftmost match, returning its start index (used to
truncate the box message) and the `line`/`last` groups. -/
def re_atline_search : Nat → Chars → Option (Nat × Option Nat × Option Nat)
  | _, [] => none
  | i, c :: rest =>
    match atlineAt (c :: rest) with
    | some (l, la) => some (i, l, la)
    | none => re_atline_search (i + 1) rest

/-- Model of `re_warning` (latex.py lines 139-140),
`(LaTeX|Package)( (?P<pkg>.*))? Warning: (?P<text>.*)$`, matched at the
line start.  Returns the optional package group, the message text and the
start index of the `text` group (used for the continuation indentation). -/
def re_warning_match (s : Chars) : Option (Option String × Chars × Nat) :=
  let year :=
    match stripLit "LaTeX" s with
    | some t => some (5, t)
    | none =>
      match stripLit "Package" s with
      | some t => some (7, t)
      | none => none
  match year with
  | none => none
  | some (h, t) =>
    match t with
    | ' ' :: t1 =>
      (match lastSubIdx t1 (" Warning: ".data) with
       | some i =>
         some (some (⟨t1.take i⟩ : String), t1.drop (i + 10), h + 1 + i + 10)
       | none =>
         match stripLit " Warning: " t with
         | some text => some (none, text, h + 10)
         | none => none)
    | _ =>
      match stripLit " Warning: " t with
      | some text => some (none, text, h + 10)
      | none => none

/-- One candidate start for `re_online` (latex.py line 141),
`(; reported)? on input line (?P<line>[0-9]*)`: returns the matched length
and the digit group. -/
def onlineAt (s : Chars) : Option (Nat × Option Nat) :=
  match stripLit "; reported on input line " s with
  | some t =>
    let ds := t.takeWhile Char.isDigit
    some (25 + ds.length, digitGroup ds)
  | none =>
    match stripLit " on input line " s with
    | some t =>
      let ds := t.takeWhile Char.isDigit
      some (15 + ds.length, digitGroup ds)
    | none => none

/-- `re_online.search`: leftmost match with its start, length and group. -/
def re_online_search : Nat → Chars → Option (Nat × Nat × Option Nat)
  | _, [] => none
  | i, c :: rest =>
    match onlineAt (c :: rest) with
    | some (len, g) => some (i, len, g)
    | none => re_online_search (i + 1) rest

/-- The tail of `re_ignored` (latex.py line 142) after its literal: digits,
then exactly one character (the `.`, which may also consume the last digit
by backtracking), then the end of the string. -/
def ignoredAfter (t : Chars) : Option (Option Nat) :=
  let ds := t.takeWhile Char.isDigit
  match t.drop ds.length with
  | [_] => some (digitGroup ds)
  | [] => if ds.isEmpty then none else some (digitGroup ds.dropLast)
  | _ => none

/-- One candidate start for `re_ignored`,
`; all text was ignored after line (?P<line>[0-9]*).$`. -/
def ignoredAt (s : Chars) : Option (Option Nat) :=
  match stripLit "; all text was ignored after line " s with
  | some t => ignoredAfter t
  | none => none

/-- `re_ignored.search`: leftmost match, returning the `line` group. -/
def re_ignored_search : Chars → Option (Option Nat)
  | [] => none
  | c :: rest =>
    match ignoredAt (c :: rest) with
    | some g => some g
    | none => re_ignored_search rest

/-- The tail of `re_reference` after the reference name: ` on page` digits,
` undefined on input line` digits and a final period. -/
def refTail (u : Chars) : Option (Option Nat × Option Nat) :=
  let ds1 := u.takeWhile Char.isDigit
  match stripLit " undefined on input line " (u.drop ds1.length) with
  | some u2 =>
    let ds2 := u2.takeWhile Char.isDigit
    (match u2.drop ds2.length with
     | ['.'] => some (digitGroup ds1, digitGroup ds2)
     | _ => none)
  | none => none

/-- The greedy scan for the `ref` group of `re_reference`: the rightmost
`' on page ` whose tail parses. -/
def refScanAux : Chars → Option (Nat × Option Nat × Option Nat)
  | [] => none
  | c :: rest =>
    match refScanAux rest with
    | some (i, pg, ln) => some (i + 1, pg, ln)
    | none =>
      match stripLit "' on page " (c :: rest) with
      | some u =>
        (match refTail u with
         | some (pg, ln) => some (0, pg, ln)
         | none => none)
      | none => none

/-- Model of `re_reference` (latex.py lines 136-137), matched at the line
start: `LaTeX Warning: Reference `...' on page N undefined on input line
M.`.  Returns the `ref`, `page` and `line` groups. -/
def re_reference_match (s : Chars) : Option (String × Option Nat × Option Nat) :=
  match stripLit "LaTeX Warning: Reference `" s with
  | some t =>
    (match refScanAux t with
     | some (i, pg, ln) => some ((⟨t.take i⟩ : String), pg, ln)
     | none => none)
  | none => none

/-- Model of `re_label` (latex.py line 138),
`LaTeX Warning: (?P<text>Label .*)$`, matched at the line start. -/
def re_label_match (s : Chars) : Option String :=
  match stripLit "LaTeX Warning: " s with
  | some t =>
    if ("Label ".data).isPrefixOf t then some (⟨t⟩ : String) else none
  | none => none

/-- Python's `str.ljust`: pad on the right with spaces to the given
width. -/
def ljust (s : String) (w : Nat) : String :=
  if w ≤ s.length then s else s ++ (⟨List.replicate (w - s.length) ' '⟩ : String)

/-- The message rewrite of a pdfTeX warning reported as an error
(latex.py line 288): `error [error.find (":") + 2:]`, where a missing colon
makes `find` return `-1`. -/
def pdfTeXText (err : Chars) : Chars :=
  match err.findIdx? (· = ':') with
  | some i => err.drop (i + 2)
  | none => err.drop 1

/-- The state of the `LogCheck.parse` loop (latex.py lines 230-241): the
local variables of the generator.  `pos` is kept top-first; `warnPre` is the
`prefix` variable, `warnInfo`/`warnText` the `info` dict and `text` list of
an open long warning, `errorTxt` the `error` variable, and `cseqs` the
undefined control sequences reported so far. -/
structure PState where
  lastFile : Option String
  pos : List (Option String)
  page : Nat
  parsing : Bool
  skipping : Bool
  errorTxt : Option String
  warnPre : Option String
  warnInfo : Diag
  warnText : List String
  accu : String
  macroName : Option String
  cseqs : List String

/-- The parser state at the start of a pass. -/
def initPState : PState :=
  ⟨none, [none], 1, false, false, none, none, emptyDiag "warning", [], "", none, []⟩

/-- The error-accumulation mode of `parse` (latex.py lines 263-331),
entered on a line starting with `!`.  `none` models an uncaught Python
exception (`pos[-1]` or `line[0]` on an empty sequence). -/
def parsingStep (fl : Flags) (st : PState) (line : String) :
    Option (PState × List Diag) :=
  let L := line.data
  let (errorTxt, cseqs) :=
    if st.errorTxt = some "Undefined control sequence." then
      match re_cseq_match L with
      | some seq =>
        let sq : String := ⟨seq⟩
        if sq ∈ st.cseqs then (none, st.cseqs)
        else (some ("Undefined control sequence " ++ sq ++ "."), sq :: st.cseqs)
      | none => (st.errorTxt, st.cseqs)
    else (st.errorTxt, st.cseqs)
  let macroName := match reMacroMatch L with
                   | some m => some (⟨m⟩ : String)
                   | none => st.macroName
  match re_line_match L with
  | some (lineG, codeG) =>
    let st1 := { st with errorTxt := errorTxt, cseqs := cseqs,
                         macroName := macroName,
                         parsing := false, skipping := true }
    let pdfTeX := containsSub L ("pdfTeX warning".data)
    (match errorTxt with
     | none => some (st1, [])
     | some err =>
       if (pdfTeX && fl.warnings) || (fl.errors && !pdfTeX) then
         let d0 : Diag :=
           if pdfTeX then
             { emptyDiag "warning" with pkg := some "pdfTeX",
                                        text := some (⟨pdfTeXText err.data⟩ : String) }
           else { emptyDiag "error" with text := some err }
         let d1 := { d0 with line := lineG,
                             code := codeG.map fun c => (⟨c⟩ : String) }
         let withMacro : Diag → PState × List Diag := fun d =>
           match st1.macroName with
           | some m => ({ st1 with macroName := none }, [{ d with macroName := some m }])
           | none => (st1, [d])
         match re_ignored_search err.data with
         | some ln2 =>
           some (withMacro { d1 with file := st1.lastFile, code := none, line := ln2 })
         | none =>
           (match stackTop st1.pos with
            | none => none
            | some top =>
              some (withMacro { d1 with
                file := match top with
                        | none => st1.lastFile
                        | some f => some f }))
       else some (st1, []))
  | none =>
    match L with
    | [] => none
    | c :: _ =>
      let stv := { st with errorTxt := errorTxt, cseqs := cseqs,
                           macroName := macroName }
      if c = '!' then
        some ({ stv with errorTxt := some (⟨L.drop 2⟩ : String) }, [])
      else if ("***".data).isPrefixOf L then
        let st1 := { stv with parsing := false, skipping := true }
        if fl.errors then
          some (st1, [{ emptyDiag "abort" with text := errorTxt,
                                               why := some (⟨L.drop 4⟩ : String),
                                               file := st1.lastFile }])
        else some (st1, [])
      else if ("Type X to quit ".data).isPrefixOf L then
        let st1 := { stv with parsing := false, skipping := false }
        if fl.errors then
          match stackTop st1.pos with
          | none => none
          | some top =>
            some (st1, [{ emptyDiag "error" with text := errorTxt, file := top }])
        else some (st1, [])
      else some (stv, [])

/-- The long-warning continuation (latex.py lines 353-368): a line sharing
the prefix indentation is appended; any other line flushes the warning
(extracting an `on input line` fragment) and is itself consumed. -/
def warnContStep (fl : Flags) (st : PState) (pre line : String) :
    Option (PState × List Diag) :=
  if pre.data.isPrefixOf line.data then
    some ({ st with warnText :=
      st.warnText ++ [((⟨line.data.drop pre.data.length⟩ : String)).trim] }, [])
  else
    let text0 : Chars := (String.intercalate " " st.warnText).data
    let (info1, text1) :=
      match re_online_search 0 text0 with
      | some (start, len, lineG) =>
        ({ st.warnInfo with line := lineG },
         text0.take start ++ text0.drop (start + len))
      | none => (st.warnInfo, text0)
    let st1 := { st with warnPre := none, warnInfo := info1 }
    if fl.warnings then
      some (st1, [{ info1 with kind := "warning", text := some (⟨text1⟩ : String) }])
    else some (st1, [])

/-- One iteration of the `parse` loop (latex.py lines 242-444) on one raw
input line, outside of error mode.  Returns the new state and the
diagnostics yielded for this line, or `none` for an uncaught exception. -/
def plainStep (fl : Flags) (st : PState) (line : String) :
    Option (PState × List Diag) :=
  let L := line.data
  match re_reference_match L with
  | some (ref, pg, ln) =>
    if fl.refs then
      match stackTop st.pos with
      | none => none
      | some top =>
        some (st, [{ emptyDiag "warning" with
          text := some ("Reference `" ++ ref ++ "' undefined."),
          file := top, ref := some ref, page := pg, line := ln }])
    else some (st, [])
  | none =>
  match re_label_match L with
  | some text =>
    if fl.refs then
      match stackTop st.pos with
      | none => none
      | some top =>
        some (st, [{ emptyDiag "warning" with text := some text, file := top }])
    else some (st, [])
  | none =>
  if containsSub L ("Warning".data) then
    match re_warning_match L with
    | some (pkgG, textG, textStart) =>
      (match stackTop st.pos with
       | none => none
       | some top =>
         let info : Diag :=
           { emptyDiag "warning" with pkg := pkgG,
                                      text := some (⟨textG⟩ : String),
                                      file := top, page := some st.page }
         let pre0 : String := match pkgG with
                              | none => ""
                              | some p => "(" ++ p ++ ")"
         some ({ st with warnPre := some (ljust pre0 textStart),
                         warnInfo := info,
                         warnText := [(⟨textG⟩ : String)] }, []))
    | none => some (st, [])
  else if re_badbox_match L then
    (if fl.boxes then
      match stackTop st.pos with
      | none => none
      | some top =>
        let (text2, lineG, lastG) :=
          match re_atline_search 0 L with
          | some (start, l, la) => (L.take start, l, la)
          | none => (L, none, none)
        some ({ st with skipping := true },
          [{ emptyDiag "warning" with text := some (⟨text2⟩ : String),
                                      file := top, page := some st.page,
                                      line := lineG, last := lastG }])
     else some ({ st with skipping := true }, []))
  else if re_rawbox_match L then
    some ({ st with skipping := true }, [])
  else
    match update_file st.pos st.lastFile L with
    | none => none
    | some (pos1, last1) =>
      some ({ st with pos := pos1, lastFile := last1,
                      page := update_page L st.page }, [])

/-- One raw input line of `LogCheck.parse`: continuation joining at the
79-character hard wrap, the skip machinery, error mode, the literal-prefix
branches, warning continuations, and finally `plainStep`. -/
def parseLine (fl : Flags) (st : PState) (rawLine : String) :
    Option (PState × List Diag) :=
  if !st.parsing && rawLine.length = 79 then
    some ({ st with accu := st.accu ++ rawLine }, [])
  else
    let line : String := st.accu ++ rawLine
    let st := { st with accu := "" }
    let L := line.data
    if st.warnPre = none && line = "" then
      some ({ st with skipping := false }, [])
    else if st.skipping then
      some (st, [])
    else if st.parsing then
      parsingStep fl st line
    else if L.head? = some '!' then
      some ({ st with errorTxt := some (⟨L.drop 2⟩ : String), parsing := true }, [])
    else if line = "Runaway argument?" then
      some ({ st with errorTxt := some line, parsing := true }, [])
    else if ("Output written on".data).isPrefixOf L then
      some (st, [])
    else if ("Missing character: ".data).isPrefixOf L then
      some ({ st with errorTxt := some line, parsing := false }, [])
    else
      match st.warnPre with
      | some pre => warnContStep fl st pre line
      | none => plainStep fl st line

/-- `LogCheck.parse` over a list of raw log lines: the concatenated
diagnostics, or `none` when the Python generator would raise. -/
def parseFrom (fl : Flags) : PState → List String → Option (List Diag)
  | _, [] => some []
  | st, l :: ls =>
    match parseLine fl st l with
    | none => none
    | some (st1, ds) =>
      match parseFrom fl st1 ls with
      | none => none
      | some rest => some (ds ++ rest)

/-- `LogCheck.parse (errors, boxes, refs, warnings)` on the lines of a log
file (the first "This is ..." line is consumed by `readlog` and not part of
the list). -/
def parse (fl : Flags) (lines : List String) : Option (List Diag) :=
  parseFrom fl initPState lines

end Latex

namespace Depend

open Contents

/-- The number of nodes that are not currently being made: the bound on the
recursion depth of `make` (each nested call happens on a node that is not
being made and immediately marks it as being made). -/
def freeCount (cfg : Config) (w : World) : Nat :=
  ((Finset.range cfg.numNodes).filter fun m => w.making m = false).card

/-- A checksum as the snapshot store actually produces it: either the
reserved `NO_SUCH_FILE` or a 16-byte digest. -/
def WfChecksum (c : Checksum) : Prop :=
  c = NO_SUCH_FILE ∨ (c.length = 16 ∧ ∀ b ∈ c, b < 256)

/-! Concrete build scenarios used to settle the claims. -/

/-- A one-node dependency set whose recipe rewrites the node's own (leaf)
source, deterministically alternating its contents between `a` and `b` and
bumping its modification time, then reports success: the canonical
non-settling node. -/
def altCfg (a b : Bytes) : Config where
  numNodes := 1
  producer := fun p => if p = "out" then some 0 else none
  sources := fun _ => ["src"]
  primary := fun _ => "out"
  isLaTeXDep := fun _ => false
  run := fun _ fs =>
    (true, fun p =>
      if p = "src" then
        match fs "src" with
        | some (t, c) => some (t + 1, if c = a then b else a)
        | none => some (0, a)
      else fs p)

/-- The initial world for `altCfg`: the source exists with contents `a`,
nothing has been observed or built yet. -/
def altW (a : Bytes) : World where
  fs := fun p => if p = "src" then some (0, a) else none
  files := fun _ => freshFile
  snapshots := fun _ => none
  making := fun _ => false
  failed_dep := fun _ => none
  runCount := fun _ => 0
  settleFailed := []

/-- The state of the `altCfg` build at the start of a patience iteration
after `k ≥ 1 ` runs: the source holds `x` (written by run `k` at time `k`),
while the snapshot memo and record still hold the digest of the previous
contents `y`. -/
def altMid (x y : Bytes) (k : Nat) : World where
  fs := fun p => if p = "src" then some (k, x) else none
  files := fun p =>
    if p = "src" then ⟨some (_checksum_algorithm y), k - 1⟩ else freshFile
  snapshots := fun n => if n = 0 then some [_checksum_algorithm y] else none
  making := fun n => n = 0
  failed_dep := fun _ => none
  runCount := fun n => if n = 0 then k else 0
  settleFailed := []

/-- The `altCfg` world with the node already flagged as being made: the
reentrancy counterexample. -/
def altWMaking : World := { altW [0] with making := fun _ => true }

/-- A world in which the source file's bytes were observed earlier but the
file no longer exists: the next snapshot raises the `vanished`
invariant assertion. -/
def altWVanish : World := { altW [0] with
  fs := fun _ => none
  files := fun p =>
    if p = "src" then ⟨some (_checksum_algorithm [0]), 0⟩ else freshFile }

/-- A three-node dependency set: node 2 consumes the products of node 0
(whose recipe always fails) and of node 1 (which would succeed); all leaf
sources exist. -/
def failCfg : Config where
  numNodes := 3
  producer := fun p =>
    if p = "c0" then some 0
    else if p = "c1" then some 1
    else if p = "top" then some 2 else none
  sources := fun n => if n = 2 then ["c0", "c1"] else ["leaf"]
  primary := fun n => if n = 0 then "c0" else if n = 1 then "c1" else "top"
  isLaTeXDep := fun _ => false
  run := fun n fs => (n ≠ 0, fs)

/-- The initial world for `failCfg`. -/
def failW : World := { altW [0] with
  fs := fun p => if p = "leaf" then some (0, [0]) else none }

/-- A two-node dependency set, `B` (node 1) depending on the product of `A`
(node 0), used for the cache round-trip scenario. -/
def abCfg : Config where
  numNodes := 2
  producer := fun p =>
    if p = "a.aux" then some 0 else if p = "b.pdf" then some 1 else none
  sources := fun n => if n = 0 then ["x.tex"] else ["a.aux"]
  primary := fun n => if n = 0 then "a.aux" else "b.pdf"
  isLaTeXDep := fun _ => false
  run := fun _ fs => (true, fs)

/-- The on-disk files of the `abCfg` scenario. -/
def abFs : Fs := fun p =>
  if p = "x.tex" then some (5, [0])
  else if p = "a.aux" then some (6, [1])
  else if p = "b.pdf" then some (7, [2]) else none

/-- The `abCfg` world after a successful build: both nodes hold the
snapshot records matching the files on disk. -/
def abSaved : World := { altW [0] with
  fs := abFs
  snapshots := fun n =>
    if n = 0 then some [_checksum_algorithm [0]]
    else if n = 1 then some [_checksum_algorithm [1]] else none }

/-- A fresh process for the `abCfg` scenario: same dependency structure and
files, no snapshot records, empty snapshot memo. -/
def abFresh : World := { altW [0] with fs := abFs }

/-- The world of the content-over-mtime scenario: the single source was
rewritten with identical bytes at a newer modification time than the one in
the snapshot memo, and the node's record matches the contents. -/
def altWTouched : World := { altW [0] with
  fs := fun p => if p = "src" then some (9, [0]) else none
  files := fun p =>
    if p = "src" then ⟨some (_checksum_algorithm [0]), 4⟩ else freshFile
  snapshots := fun n => if n = 0 then some [_checksum_algorithm [0]] else none }

end Depend

/-! ## Theorems -/

theorem upd_same {α β : Type} [DecidableEq α] (f : α → β) (a : α) (b : β) :
    upd f a b a = b := by simp [upd]

theorem upd_other {α β : Type} [DecidableEq α] (f : α → β) (a : α) (b : β)
    (x : α) (h : x ≠ a) : upd f a b x = f x := by simp [upd, h]

namespace Contents

theorem checksum_algorithm_length (c : Bytes) :
    (_checksum_algorithm c).length = 16 := by
  simp [_checksum_algorithm]

theorem checksum_algorithm_ne_missing (c : Bytes) :
    _checksum_algorithm c ≠ NO_SUCH_FILE := by
  intro h
  have h16 := checksum_algorithm_length c
  rw [h] at h16
  simp [NO_SUCH_FILE] at h16

theorem checksum_algorithm_bytes_lt (c : Bytes) :
    ∀ b ∈ _checksum_algorithm c, b < 256 := by
  intro b hb
  simp only [_checksum_algorithm] at hb
  have hb' := List.mem_of_mem_take hb
  rcases List.mem_append.mp hb' with h | h
  · rcases List.mem_map.mp h with ⟨a, _, rfl⟩
    exact Nat.mod_lt _ (by omega)
  · rcases List.eq_of_mem_replicate h with rfl
    omega

/-- The digests the store produces are well formed. -/
theorem checksum_algorithm_wf (c : Bytes) :
    Depend.WfChecksum (_checksum_algorithm c) :=
  Or.inr ⟨checksum_algorithm_length c, checksum_algorithm_bytes_lt c⟩

/-- Claim C4: `snapshot` raises exactly on the two invariant violations:
a modification time that decreased since the prior observation of the
file's bytes, or a file that vanished after a prior non-`Missing` record;
every other configuration returns a `Fingerprint` normally. -/
theorem snapshot_error_iff (fs : Option (Nat × Bytes)) (st : FileState) :
    (∃ e, snapshot fs st = .error e) ↔
      ((∃ m c prev, fs = some (m, c) ∧ st.checksum = some prev ∧
          prev ≠ NO_SUCH_FILE ∧ m < st.mtime) ∨
       (fs = none ∧ ∃ prev, st.checksum = some prev ∧ prev ≠ NO_SUCH_FILE)) := by
  rcases fs with _ | ⟨m, c⟩
  · rcases hc : st.checksum with _ | prev
    · simp [snapshot, hc]
    · by_cases hp : prev = NO_SUCH_FILE <;> simp [snapshot, hc, hp]
  · rcases hc : st.checksum with _ | prev
    · simp [snapshot, hc]
    · by_cases hp : prev = NO_SUCH_FILE
      · simp [snapshot, hc, hp]
      · by_cases he : st.mtime = m
        · constructor
          · intro hh
            rcases hh with ⟨e, hh⟩
            simp [snapshot, hc, hp, he] at hh
          · intro hh
            rcases hh with ⟨m', c', prev', h1, h2, h3, h4⟩ | ⟨h1, _⟩
            · cases h1
              omega
            · cases h1
        · by_cases hl : st.mtime < m
          · constructor
            · intro hh
              rcases hh with ⟨e, hh⟩
              simp only [snapshot, hc, hp, he, hl, if_neg, if_pos, if_false] at hh
              split at hh <;> simp_all
            · intro hh
              rcases hh with ⟨m', c', prev', h1, h2, h3, h4⟩ | ⟨h1, _⟩
              · cases h1
                omega
              · cases h1
          · have hgt : m < st.mtime := by omega
            constructor
            · intro _
              exact Or.inl ⟨m, c, prev, rfl, rfl, hp, hgt⟩
            · intro _
              refine ⟨"mtime decreased", ?_⟩
              simp [snapshot, hc, hp, he, hl]

/-- Claim C3: snapshot stability and content-over-mtime.  First, after any
successful `snapshot` call on an existing file, a second call that finds the
same modification time returns an equal `Fingerprint` without reading the
file's bytes (`reads = 0`).  Second, a file rewritten with byte-identical
contents at a strictly newer modification time is re-hashed (`reads = 1`)
but yields an equal `Fingerprint`.  Third, in consequence, a node whose
single source was rewritten with identical bytes at a newer mtime is not
rebuilt: `make` returns `UNCHANGED` and its recipe is never invoked. -/
theorem snapshot_stable_and_content_over_mtime :
    (∀ (m : Nat) (c c' : Bytes) (st : FileState) (r : SnapResult),
        snapshot (some (m, c)) st = .ok r →
        snapshot (some (m, c')) r.state = .ok ⟨r.state, r.result, 0⟩) ∧
    (∀ (m' : Nat) (c : Bytes) (st : FileState),
        st.checksum = some (_checksum_algorithm c) → st.mtime < m' →
        snapshot (some (m', c)) st =
          .ok ⟨⟨st.checksum, m'⟩, _checksum_algorithm c, 1⟩) ∧
    ((Depend.make (Depend.altCfg [0] [1]) 1 Depend.altWTouched 0).2 =
        .ok Depend.UNCHANGED ∧
     (Depend.make (Depend.altCfg [0] [1]) 1 Depend.altWTouched 0).1.runCount 0 = 0) := by
  refine ⟨?_, ?_, by decide⟩
  · intro m c c' st r hr
    rcases hc : st.checksum with _ | prev
    · simp only [snapshot, hc] at hr
      cases hr
      simp [snapshot, checksum_algorithm_ne_missing]
    · by_cases hp : prev = NO_SUCH_FILE
      · simp only [snapshot, hc, hp, if_pos] at hr
        cases hr
        simp [snapshot, checksum_algorithm_ne_missing]
      · by_cases he : st.mtime = m
        · simp only [snapshot, hc, hp, he, if_neg, if_pos, if_true] at hr
          simp only [if_false] at hr
          cases hr
          simp [snapshot, hc, hp, he]
        · by_cases hl : st.mtime < m
          · simp only [snapshot, hc, hp, he, hl, if_neg, if_pos, if_false] at hr
            split at hr <;>
            · cases hr
              simp [snapshot, hp, hc, checksum_algorithm_ne_missing]
          · simp [snapshot, hc, hp, he, hl] at hr
  · intro m' c st hcs hlt
    have hne : st.mtime ≠ m' := by omega
    simp [snapshot, hcs, checksum_algorithm_ne_missing c, hne, hlt]

/-- Witness for the snapshot stability claim at a concrete input: the file
holds byte `7`, hashed at time 1, and is seen again at time 3 with the same
bytes. -/
theorem snapshot_stable_and_content_over_mtime_witness :
    snapshot (some (3, [7])) ⟨some (_checksum_algorithm [7]), 1⟩ =
      .ok ⟨⟨some (_checksum_algorithm [7]), 3⟩, _checksum_algorithm [7], 1⟩ :=
  snapshot_stable_and_content_over_mtime.2.1 3 [7]
    ⟨some (_checksum_algorithm [7]), 1⟩ rfl (by decide)

theorem hexVal_hexDigit (v : Nat) (h : v < 16) : hexVal (hexDigit v) = v := by
  interval_cases v <;> decide

theorem hexDigit_ne_N (v : Nat) (h : v < 16) : hexDigit v ≠ 'N' := by
  interval_cases v <;> decide

theorem hexPairs_byte2hex (b : Nat) (hb : b < 256) (rest : List Char) :
    hexPairs (byte2hex b ++ rest) = b :: hexPairs rest := by
  have h1 : b / 16 < 16 := by omega
  have h2 : b % 16 < 16 := by omega
  simp only [byte2hex, List.cons_append, List.nil_append, hexPairs,
    hexVal_hexDigit _ h1, hexVal_hexDigit _ h2]
  congr 1
  omega

theorem hexPairs_flatMap (c : Checksum) (hb : ∀ b ∈ c, b < 256) :
    hexPairs (c.flatMap byte2hex) = c := by
  induction c with
  | nil => rfl
  | cons b rest ih =>
    rw [List.flatMap_cons, hexPairs_byte2hex b (hb b (by simp)) _,
      ih fun x hx => hb x (by simp [hx])]

theorem cs2str_data_length (c : Checksum) (h : Depend.WfChecksum c) :
    (cs2str c).data.length = 32 := by
  rcases h with h | ⟨hlen, hb⟩
  · rw [cs2str, if_pos h]
    decide
  · by_cases hm : c = NO_SUCH_FILE
    · rw [cs2str, if_pos hm]
      decide
    · rw [cs2str, if_neg hm]
      show (c.flatMap byte2hex).length = 32
      have : ∀ cc : Checksum, (cc.flatMap byte2hex).length = 2 * cc.length := by
        intro cc
        induction cc with
        | nil => rfl
        | cons x rest ih => simp [List.flatMap_cons, byte2hex, ih]; omega
      rw [this, hlen]

theorem str2cs_cs2str (c : Checksum) (h : Depend.WfChecksum c) :
    str2cs (cs2str c) = c := by
  rcases h with h | ⟨hlen, hb⟩
  · rw [h]
    decide
  · by_cases hm : c = NO_SUCH_FILE
    · rw [hm]
      decide
    · rw [cs2str, if_neg hm, str2cs]
      have hne : (⟨c.flatMap byte2hex⟩ : String) ≠ missingLiteral := by
        intro hcontra
        rcases c with _ | ⟨b, rest⟩
        · exact hm rfl
        · have : ((b :: rest).flatMap byte2hex) = missingLiteral.data := by
            rw [← hcontra]
          rw [List.flatMap_cons] at this
          have hN : hexDigit (b / 16) = 'N' := by
            have := congrArg (fun l => l.head?) this
            simpa [byte2hex, missingLiteral] using this
          exact hexDigit_ne_N (b / 16) (by have := hb b (by simp); omega) hN
      rw [if_neg hne]
      exact hexPairs_flatMap c hb

end Contents

namespace Depend

open Contents

theorem wsnapshot_world (w : World) (p : Path) :
    ∃ fl, (wsnapshot w p).1 = { w with files := fl } := by
  unfold wsnapshot
  split
  · exact ⟨_, rfl⟩
  · exact ⟨w.files, rfl⟩

theorem snapshotAll_world (srcs : List Path) :
    ∀ w : World, ∃ fl, (snapshotAll w srcs).1 = { w with files := fl } := by
  induction srcs with
  | nil => exact fun w => ⟨w.files, rfl⟩
  | cons p rest ih =>
    intro w
    simp only [snapshotAll]
    split
    next w1 c heq =>
      obtain ⟨f1, h1⟩ := wsnapshot_world w p
      rw [heq] at h1
      have h1' : w1 = { w with files := f1 } := h1
      obtain ⟨f2, h2⟩ := ih w1
      split
      next w2 cs heq2 =>
        rw [heq2] at h2
        have h2' : w2 = { w1 with files := f2 } := h2
        exact ⟨f2, by rw [h2', h1']⟩
      next w2 e heq2 =>
        rw [heq2] at h2
        have h2' : w2 = { w1 with files := f2 } := h2
        exact ⟨f2, by rw [h2', h1']⟩
    next w1 e heq =>
      obtain ⟨f1, h1⟩ := wsnapshot_world w p
      rw [heq] at h1
      exact ⟨f1, h1⟩

theorem snapshotAll_ok_length (srcs : List Path) :
    ∀ (w w' : World) (cs : List Checksum),
    snapshotAll w srcs = (w', .ok cs) → cs.length = srcs.length := by
  induction srcs with
  | nil =>
    intro w w' cs h
    simp only [snapshotAll] at h
    cases h
    rfl
  | cons p rest ih =>
    intro w w' cs h
    simp only [snapshotAll] at h
    split at h
    next w1 c heq =>
      split at h
      next w2 cs2 heq2 =>
        cases h
        simpa using ih _ _ _ heq2
      next w2 e heq2 => cases h
    next w1 e heq => cases h

theorem snapshotsDiffer_world (recorded : List Checksum) (srcs : List Path) :
    ∀ w : World, ∃ fl, (snapshotsDiffer w recorded srcs).1 = { w with files := fl } := by
  induction recorded generalizing srcs with
  | nil =>
    intro w
    cases srcs <;> exact ⟨w.files, rfl⟩
  | cons r rs ih =>
    intro w
    cases srcs with
    | nil => exact ⟨w.files, rfl⟩
    | cons p ps =>
      simp only [snapshotsDiffer]
      split
      next w1 c heq =>
        obtain ⟨f1, h1⟩ := wsnapshot_world w p
        rw [heq] at h1
        have h1' : w1 = { w with files := f1 } := h1
        by_cases hr : r = c
        · rw [if_pos hr]
          obtain ⟨f2, h2⟩ := ih ps w1
          have h2' : (snapshotsDiffer w1 rs ps).1 = { w1 with files := f2 } := h2
          exact ⟨f2, by rw [h2', h1']⟩
        · rw [if_neg hr]
          exact ⟨f1, h1⟩
      next w1 e heq =>
        obtain ⟨f1, h1⟩ := wsnapshot_world w p
        rw [heq] at h1
        exact ⟨f1, h1⟩

theorem snapPhase_world (w : World) (n : Nat) (srcs : List Path) :
    ∃ fl rec,
      (snapPhase w n srcs).world = { w with files := fl, snapshots := rec } ∧
      (∀ m, m ≠ n → rec m = w.snapshots m) ∧
      (rec n = w.snapshots n ∨ ∃ cs, rec n = some cs ∧ cs.length = srcs.length) := by
  unfold snapPhase
  split
  · split
    next w1 cs heq =>
      obtain ⟨f1, h1⟩ := snapshotAll_world srcs w
      rw [heq] at h1
      have h1' : w1 = { w with files := f1 } := h1
      exact ⟨f1, upd w.snapshots n (some cs), by simp only [SnapOut.world]; rw [h1'],
        fun m hm => upd_other _ _ _ _ hm,
        Or.inr ⟨cs, upd_same _ _ _, snapshotAll_ok_length srcs w w1 cs heq⟩⟩
    next w1 e heq =>
      obtain ⟨f1, h1⟩ := snapshotAll_world srcs w
      rw [heq] at h1
      have h1' : w1 = { w with files := f1 } := h1
      exact ⟨f1, w.snapshots, by simp only [SnapOut.world]; rw [h1'],
        fun m _ => rfl, Or.inl rfl⟩
  · rename_i recorded heq0
    split
    next w1 heq =>
      obtain ⟨f1, h1⟩ := snapshotsDiffer_world recorded srcs w
      rw [heq] at h1
      have h1' : w1 = { w with files := f1 } := h1
      exact ⟨f1, w.snapshots, by simp only [SnapOut.world]; rw [h1'],
        fun m _ => rfl, Or.inl rfl⟩
    next w1 heq =>
      obtain ⟨f1, h1⟩ := snapshotsDiffer_world recorded srcs w
      rw [heq] at h1
      have h1' : w1 = { w with files := f1 } := h1
      split
      next w2 cs heq2 =>
        obtain ⟨f2, h2⟩ := snapshotAll_world srcs w1
        rw [heq2] at h2
        have h2' : w2 = { w1 with files := f2 } := h2
        exact ⟨f2, upd w.snapshots n (some cs),
          by simp only [SnapOut.world]; rw [h2', h1'],
          fun m hm => upd_other _ _ _ _ hm,
          Or.inr ⟨cs, upd_same _ _ _, snapshotAll_ok_length srcs w1 w2 cs heq2⟩⟩
      next w2 e heq2 =>
        obtain ⟨f2, h2⟩ := snapshotAll_world srcs w1
        rw [heq2] at h2
        have h2' : w2 = { w1 with files := f2 } := h2
        exact ⟨f2, w.snapshots, by simp only [SnapOut.world]; rw [h2', h1'],
          fun m _ => rfl, Or.inl rfl⟩
    next w1 e heq =>
      obtain ⟨f1, h1⟩ := snapshotsDiffer_world recorded srcs w
      rw [heq] at h1
      have h1' : w1 = { w with files := f1 } := h1
      exact ⟨f1, w.snapshots, by simp only [SnapOut.world]; rw [h1'],
        fun m _ => rfl, Or.inl rfl⟩

theorem runPhase_world (cfg : Config) (w : World) (n : Nat) :
    ∃ fs' rc sn fd,
      (runPhase cfg w n).world =
        { w with fs := fs', runCount := rc, snapshots := sn, failed_dep := fd } ∧
      (∀ m, m ≠ n → rc m = w.runCount m) ∧ rc n ≤ w.runCount n + 1 ∧
      (∀ m, m ≠ n → sn m = w.snapshots m) ∧
      (sn n = w.snapshots n ∨ sn n = none) ∧
      (∀ m, m ≠ n → fd m = w.failed_dep m) ∧
      (fd n = w.failed_dep n ∨ fd n = some n) := by
  unfold runPhase
  split
  · exact ⟨w.fs, w.runCount, w.snapshots, w.failed_dep, rfl, fun m _ => rfl,
      by omega, fun m _ => rfl, Or.inl rfl, fun m _ => rfl, Or.inl rfl⟩
  · split
    next ok fs' heq =>
      split
      · exact ⟨fs', upd w.runCount n (w.runCount n + 1), w.snapshots, w.failed_dep,
          rfl, fun m hm => upd_other _ _ _ _ hm, by rw [upd_same], fun m _ => rfl,
          Or.inl rfl, fun m _ => rfl, Or.inl rfl⟩
      · exact ⟨fs', upd w.runCount n (w.runCount n + 1),
          upd w.snapshots n none, upd w.failed_dep n (some n),
          rfl, fun m hm => upd_other _ _ _ _ hm, by rw [upd_same],
          fun m hm => upd_other _ _ _ _ hm, Or.inr (upd_same _ _ _),
          fun m hm => upd_other _ _ _ _ hm, Or.inr (upd_same _ _ _)⟩

theorem snapPhase_making (w : World) (n : Nat) (srcs : List Path) :
    (snapPhase w n srcs).world.making = w.making := by
  obtain ⟨fl, rec, hw, _, _⟩ := snapPhase_world w n srcs
  rw [hw]

theorem snapPhase_runCount (w : World) (n : Nat) (srcs : List Path) :
    (snapPhase w n srcs).world.runCount = w.runCount := by
  obtain ⟨fl, rec, hw, _, _⟩ := snapPhase_world w n srcs
  rw [hw]

theorem snapPhase_failed_dep (w : World) (n : Nat) (srcs : List Path) :
    (snapPhase w n srcs).world.failed_dep = w.failed_dep := by
  obtain ⟨fl, rec, hw, _, _⟩ := snapPhase_world w n srcs
  rw [hw]

theorem snapPhase_settleFailed (w : World) (n : Nat) (srcs : List Path) :
    (snapPhase w n srcs).world.settleFailed = w.settleFailed := by
  obtain ⟨fl, rec, hw, _, _⟩ := snapPhase_world w n srcs
  rw [hw]

theorem runPhase_making (cfg : Config) (w : World) (n : Nat) :
    (runPhase cfg w n).world.making = w.making := by
  obtain ⟨fs', rc, sn, fd, hw, _⟩ := runPhase_world cfg w n
  rw [hw]

theorem runPhase_settleFailed (cfg : Config) (w : World) (n : Nat) :
    (runPhase cfg w n).world.settleFailed = w.settleFailed := by
  obtain ⟨fs', rc, sn, fd, hw, _⟩ := runPhase_world cfg w n
  rw [hw]

/-- A source whose producer is already being made is a pruned cyclic edge:
the loop skips it, contributing neither `CHANGED` nor an error
(depend.py lines 177-182). -/
theorem makeSources_prune (cfg : Config) (mk : Mk) (n : Nat) (w : World)
    (p : Path) (rest : List Path) (rv m : Nat)
    (hp : cfg.producer p = some m) (hm : w.making m = true) :
    makeSources cfg mk n w (p :: rest) rv = makeSources cfg mk n w rest rv := by
  simp [makeSources, hp, hm]

/-- A dependency that fails stops the source loop at once: `failed_dep` is
copied from the child and `ERROR` is returned, with no further sources
processed (depend.py lines 183-188). -/
theorem makeSources_child_error (cfg : Config) (mk : Mk) (n : Nat) (w : World)
    (p : Path) (rest : List Path) (rv m : Nat) (w1 : World)
    (hp : cfg.producer p = some m) (hm : w.making m = false)
    (hc : mk w m = (w1, .ok ERROR)) :
    makeSources cfg mk n w (p :: rest) rv =
      ({ w1 with failed_dep := upd w1.failed_dep n (w1.failed_dep m) }, .ok ERROR) := by
  simp [makeSources, hp, hm, hc]

theorem makeSources_making (cfg : Config) (mk : Mk) (n : Nat)
    (Hmk : ∀ w m rv, (mk w m).2 = .ok rv → (mk w m).1.making = w.making) :
    ∀ (srcs : List Path) (w : World) (rv rv' : Nat),
      (makeSources cfg mk n w srcs rv).2 = .ok rv' →
      (makeSources cfg mk n w srcs rv).1.making = w.making := by
  intro srcs
  induction srcs with
  | nil => intro w rv rv' _; rfl
  | cons p rest ih =>
    intro w rv rv' h
    simp only [makeSources] at h ⊢
    split at h
    next heqp => exact ih w rv rv' h
    next m heqp =>
      split at h
      next hm =>
        rw [if_pos hm]
        exact ih w rv rv' h
      next hm =>
        rw [if_neg hm]
        split at h
        next w1 srv heqc =>
          have hchild := Hmk w m srv (by rw [heqc])
          rw [heqc] at hchild
          split at h
          next hsrv =>
            rw [if_pos hsrv]
            exact hchild
          next hsrv =>
            rw [if_neg hsrv]
            split at h
            next hsrv2 =>
              rw [if_pos hsrv2, ih w1 CHANGED rv' h]
              exact hchild
            next hsrv2 =>
              rw [if_neg hsrv2, ih w1 rv rv' h]
              exact hchild
        next w1 r hne heqc =>
          cases r with
          | ok rv2 => exact (hne rv2 rfl).elim
          | exn e => cases h
          | fuel => cases h

theorem makeSources_protected (cfg : Config) (mk : Mk) (n nn : Nat)
    (Hmk : ∀ w m, w.making nn = true →
       (mk w m).1.runCount nn = w.runCount nn ∧ (mk w m).1.making nn = true) :
    ∀ (srcs : List Path) (w : World) (rv : Nat), w.making nn = true →
      (makeSources cfg mk n w srcs rv).1.runCount nn = w.runCount nn ∧
      (makeSources cfg mk n w srcs rv).1.making nn = true := by
  intro srcs
  induction srcs with
  | nil => intro w rv hw; exact ⟨rfl, hw⟩
  | cons p rest ih =>
    intro w rv hw
    simp only [makeSources]
    split
    next heqp => exact ih w rv hw
    next m heqp =>
      split
      next hm => exact ih w rv hw
      next hm =>
        have hchild := Hmk w m hw
        split
        next w1 srv heqc =>
          rw [heqc] at hchild
          split
          next hsrv => exact hchild
          next hsrv =>
            split
            next hsrv2 =>
              have hrec := ih w1 CHANGED hchild.2
              exact ⟨hrec.1.trans hchild.1, hrec.2⟩
            next hsrv2 =>
              have hrec := ih w1 rv hchild.2
              exact ⟨hrec.1.trans hchild.1, hrec.2⟩
        next w1 r hne heqc =>
          rw [heqc] at hchild
          exact hchild

theorem makeSources_nf (cfg : Config) (mk : Mk) (n : Nat) (base : World)
    (Hrst : ∀ w m rv, (mk w m).2 = .ok rv → (mk w m).1.making = w.making)
    (Hnf : ∀ w' m, (∀ j, w'.making j = base.making j) → w'.making m = false →
        (∃ p, cfg.producer p = some m) → (mk w' m).2 ≠ .fuel) :
    ∀ (srcs : List Path) (w : World) (rv : Nat),
      (∀ j, w.making j = base.making j) →
      (makeSources cfg mk n w srcs rv).2 ≠ .fuel ∧
      (∀ rv', (makeSources cfg mk n w srcs rv).2 = .ok rv' →
         ∀ j, (makeSources cfg mk n w srcs rv).1.making j = base.making j) := by
  intro srcs
  induction srcs with
  | nil =>
    intro w rv hw
    exact ⟨by simp [makeSources], fun rv' _ j => hw j⟩
  | cons p rest ih =>
    intro w rv hw
    simp only [makeSources]
    split
    next heqp => exact ih w rv hw
    next m heqp =>
      split
      next hm => exact ih w rv hw
      next hm =>
        have hm' : w.making m = false := by simpa using hm
        split
        next w1 srv heqc =>
          have hrst := Hrst w m srv (by rw [heqc])
          rw [heqc] at hrst
          have hw1 : ∀ j, w1.making j = base.making j := by
            intro j
            rw [congrFun hrst j]
            exact hw j
          split
          next hsrv =>
            exact ⟨by simp, fun rv' _ j => hw1 j⟩
          next hsrv =>
            split
            next hsrv2 => exact ih w1 CHANGED hw1
            next hsrv2 => exact ih w1 rv hw1
        next w1 r hne heqc =>
          cases r with
          | ok rv2 => exact (hne rv2 rfl).elim
          | exn e => exact ⟨by simp, fun rv' h => by cases h⟩
          | fuel =>
            exact ((Hnf w m hw hm' ⟨p, heqp⟩) (by rw [heqc])).elim

theorem realMake_making (cfg : Config) (mk : Mk) (n : Nat)
    (Hmk : ∀ w m rv, (mk w m).2 = .ok rv → (mk w m).1.making = w.making) :
    ∀ (patience : Nat) (w : World) (rv rv' : Nat),
      (realMake cfg mk n patience w rv).2 = .ok rv' →
      (realMake cfg mk n patience w rv).1.making = w.making := by
  intro patience
  induction patience with
  | zero => intro w rv rv' _; rfl
  | succ p ih =>
    intro w rv rv' h
    simp only [realMake] at h ⊢
    split at h
    next w1 rv1 heqS =>
      have hms := makeSources_making cfg mk n Hmk (cfg.sources n) w rv rv1
        (by rw [heqS])
      rw [heqS] at hms
      split at h
      next hrv1 =>
        rw [if_pos hrv1]
        exact hms
      next hrv1 =>
        rw [if_neg hrv1]
        split at h
        next w2 heqP =>
          have h2 := snapPhase_making w1 n (cfg.sources n)
          rw [heqP] at h2
          simp only [SnapOut.world] at h2
          exact h2.trans hms
        next w2 e heqP => cases h
        next w2 heqP =>
          have h2 := snapPhase_making w1 n (cfg.sources n)
          rw [heqP] at h2
          simp only [SnapOut.world] at h2
          split at h
          next w3 heqR =>
            have hR := runPhase_making cfg w2 n
            rw [heqR] at hR
            simp only [IterOut.world] at hR
            rw [ih w3 CHANGED rv' h, hR, h2]
            exact hms
          next w3 r heqR =>
            have hR := runPhase_making cfg w2 n
            rw [heqR] at hR
            simp only [IterOut.world] at hR
            rw [hR, h2]
            exact hms
    next w1 e heqS => cases h
    next w1 heqS => cases h

theorem runPhase_runCount_other (cfg : Config) (w : World) (n k : Nat)
    (hk : k ≠ n) : (runPhase cfg w n).world.runCount k = w.runCount k := by
  obtain ⟨fs', rc, sn, fd, hw, hrc, _⟩ := runPhase_world cfg w n
  rw [hw]
  exact hrc k hk

theorem runPhase_runCount_self (cfg : Config) (w : World) (n : Nat) :
    (runPhase cfg w n).world.runCount n ≤ w.runCount n + 1 := by
  obtain ⟨fs', rc, sn, fd, hw, _, hle, _⟩ := runPhase_world cfg w n
  rw [hw]
  exact hle

theorem realMake_protected (cfg : Config) (mk : Mk) (m nn : Nat) (hmn : m ≠ nn)
    (Hmk : ∀ w k, w.making nn = true →
       (mk w k).1.runCount nn = w.runCount nn ∧ (mk w k).1.making nn = true) :
    ∀ (patience : Nat) (w : World) (rv : Nat), w.making nn = true →
      (realMake cfg mk m patience w rv).1.runCount nn = w.runCount nn ∧
      (realMake cfg mk m patience w rv).1.making nn = true := by
  intro patience
  induction patience with
  | zero => intro w rv hw; exact ⟨rfl, hw⟩
  | succ p ih =>
    intro w rv hw
    simp only [realMake]
    split
    next w1 rv1 heqS =>
      have hms := makeSources_protected cfg mk m nn Hmk (cfg.sources m) w rv hw
      rw [heqS] at hms
      split
      next hrv1 => exact hms
      next hrv1 =>
        split
        next w2 heqP =>
          have hrc := snapPhase_runCount w1 m (cfg.sources m)
          have hmk2 := snapPhase_making w1 m (cfg.sources m)
          rw [heqP] at hrc hmk2
          simp only [SnapOut.world] at hrc hmk2
          exact ⟨(congrFun hrc nn).trans hms.1,
                 (congrFun hmk2 nn).trans (by exact hms.2)⟩
        next w2 e heqP =>
          have hrc := snapPhase_runCount w1 m (cfg.sources m)
          have hmk2 := snapPhase_making w1 m (cfg.sources m)
          rw [heqP] at hrc hmk2
          simp only [SnapOut.world] at hrc hmk2
          exact ⟨(congrFun hrc nn).trans hms.1,
                 (congrFun hmk2 nn).trans (by exact hms.2)⟩
        next w2 heqP =>
          have hrc := snapPhase_runCount w1 m (cfg.sources m)
          have hmk2 := snapPhase_making w1 m (cfg.sources m)
          rw [heqP] at hrc hmk2
          simp only [SnapOut.world] at hrc hmk2
          have h2rc : w2.runCount nn = w.runCount nn := (congrFun hrc nn).trans hms.1
          have h2mk : w2.making nn = true := (congrFun hmk2 nn).trans hms.2
          split
          next w3 heqR =>
            have hRrc := runPhase_runCount_other cfg w2 m nn (Ne.symm hmn)
            have hRmk := runPhase_making cfg w2 m
            rw [heqR] at hRrc hRmk
            simp only [IterOut.world] at hRrc hRmk
            have h3mk : w3.making nn = true := (congrFun hRmk nn).trans h2mk
            have hrec := ih w3 CHANGED h3mk
            exact ⟨hrec.1.trans (hRrc.trans h2rc), hrec.2⟩
          next w3 r heqR =>
            have hRrc := runPhase_runCount_other cfg w2 m nn (Ne.symm hmn)
            have hRmk := runPhase_making cfg w2 m
            rw [heqR] at hRrc hRmk
            simp only [IterOut.world] at hRrc hRmk
            exact ⟨hRrc.trans h2rc, (congrFun hRmk nn).trans h2mk⟩
    next w1 e heqS =>
      have hms := makeSources_protected cfg mk m nn Hmk (cfg.sources m) w rv hw
      rw [heqS] at hms
      exact hms
    next w1 heqS =>
      have hms := makeSources_protected cfg mk m nn Hmk (cfg.sources m) w rv hw
      rw [heqS] at hms
      exact hms

theorem realMake_runCount_le (cfg : Config) (mk : Mk) (n : Nat)
    (Hmk : ∀ w k, w.making n = true →
       (mk w k).1.runCount n = w.runCount n ∧ (mk w k).1.making n = true) :
    ∀ (patience : Nat) (w : World) (rv : Nat), w.making n = true →
      (realMake cfg mk n patience w rv).1.runCount n ≤ w.runCount n + patience := by
  intro patience
  induction patience with
  | zero => intro w rv _; exact Nat.le_refl _
  | succ p ih =>
    intro w rv hw
    simp only [realMake]
    split
    next w1 rv1 heqS =>
      have hms := makeSources_protected cfg mk n n Hmk (cfg.sources n) w rv hw
      rw [heqS] at hms
      split
      next hrv1 =>
        dsimp only [] at hms ⊢
        omega
      next hrv1 =>
        split
        next w2 heqP =>
          have hrc := snapPhase_runCount w1 n (cfg.sources n)
          rw [heqP] at hrc
          simp only [SnapOut.world] at hrc
          dsimp only [] at hms ⊢
          have := (congrFun hrc n).trans hms.1
          omega
        next w2 e heqP =>
          have hrc := snapPhase_runCount w1 n (cfg.sources n)
          rw [heqP] at hrc
          simp only [SnapOut.world] at hrc
          dsimp only [] at hms ⊢
          have := (congrFun hrc n).trans hms.1
          omega
        next w2 heqP =>
          have hrc := snapPhase_runCount w1 n (cfg.sources n)
          have hmk2 := snapPhase_making w1 n (cfg.sources n)
          rw [heqP] at hrc hmk2
          simp only [SnapOut.world] at hrc hmk2
          dsimp only [] at hms
          have h2rc : w2.runCount n = w.runCount n := (congrFun hrc n).trans hms.1
          have h2mk : w2.making n = true := (congrFun hmk2 n).trans hms.2
          split
          next w3 heqR =>
            have hRle := runPhase_runCount_self cfg w2 n
            have hRmk := runPhase_making cfg w2 n
            rw [heqR] at hRle hRmk
            simp only [IterOut.world] at hRle hRmk
            have h3mk : w3.making n = true := (congrFun hRmk n).trans h2mk
            have hrec := ih w3 CHANGED h3mk
            omega
          next w3 r heqR =>
            have hRle := runPhase_runCount_self cfg w2 n
            rw [heqR] at hRle
            simp only [IterOut.world] at hRle
            dsimp only []
            omega
    next w1 e heqS =>
      have hms := makeSources_protected cfg mk n n Hmk (cfg.sources n) w rv hw
      rw [heqS] at hms
      dsimp only [] at hms ⊢
      omega
    next w1 heqS =>
      have hms := makeSources_protected cfg mk n n Hmk (cfg.sources n) w rv hw
      rw [heqS] at hms
      dsimp only [] at hms ⊢
      omega

theorem runPhase_stop (cfg : Config) (w : World) (n : Nat) (w' : World)
    (r : MakeResult) (h : runPhase cfg w n = .stop w' r) : r = .ok ERROR := by
  unfold runPhase at h
  split at h
  · cases h
  · split at h
    next heq =>
      split at h
      · cases h
      · cases h
        rfl

theorem realMake_nf (cfg : Config) (mk : Mk) (n : Nat) (base : World)
    (Hrst : ∀ w m rv, (mk w m).2 = .ok rv → (mk w m).1.making = w.making)
    (Hnf : ∀ w' m, (∀ j, w'.making j = base.making j) → w'.making m = false →
        (∃ p, cfg.producer p = some m) → (mk w' m).2 ≠ .fuel) :
    ∀ (patience : Nat) (w : World) (rv : Nat),
      (∀ j, w.making j = base.making j) →
      (realMake cfg mk n patience w rv).2 ≠ .fuel ∧
      (∀ rv', (realMake cfg mk n patience w rv).2 = .ok rv' →
        ∀ j, (realMake cfg mk n patience w rv).1.making j = base.making j) := by
  intro patience
  induction patience with
  | zero =>
    intro w rv hw
    exact ⟨by simp [realMake], fun rv' _ j => hw j⟩
  | succ p ih =>
    intro w rv hw
    have hnfS := makeSources_nf cfg mk n base Hrst Hnf (cfg.sources n) w rv hw
    simp only [realMake]
    split
    next w1 rv1 heqS =>
      have hw1 : ∀ j, w1.making j = base.making j := by
        intro j
        have := hnfS.2 rv1 (by rw [heqS]) j
        rw [heqS] at this
        exact this
      split
      next hrv1 => exact ⟨by simp, fun rv' _ j => hw1 j⟩
      next hrv1 =>
        split
        next w2 heqP =>
          have hmk2 := snapPhase_making w1 n (cfg.sources n)
          rw [heqP] at hmk2
          simp only [SnapOut.world] at hmk2
          exact ⟨by simp, fun rv' _ j => (congrFun hmk2 j).trans (hw1 j)⟩
        next w2 e heqP =>
          exact ⟨by simp, fun rv' h => by cases h⟩
        next w2 heqP =>
          have hmk2 := snapPhase_making w1 n (cfg.sources n)
          rw [heqP] at hmk2
          simp only [SnapOut.world] at hmk2
          have hw2 : ∀ j, w2.making j = base.making j :=
            fun j => (congrFun hmk2 j).trans (hw1 j)
          split
          next w3 heqR =>
            have hRmk := runPhase_making cfg w2 n
            rw [heqR] at hRmk
            simp only [IterOut.world] at hRmk
            exact ih w3 CHANGED fun j => (congrFun hRmk j).trans (hw2 j)
          next w3 r heqR =>
            have hr := runPhase_stop cfg w2 n w3 r heqR
            have hRmk := runPhase_making cfg w2 n
            rw [heqR] at hRmk
            simp only [IterOut.world] at hRmk
            subst hr
            exact ⟨by simp, fun rv' _ j => (congrFun hRmk j).trans (hw2 j)⟩
    next w1 e heqS =>
      exact ⟨by simp, fun rv' h => by cases h⟩
    next w1 heqS =>
      exact (hnfS.1 (by rw [heqS])).elim

theorem make_protected (cfg : Config) :
    ∀ (fuel : Nat) (w : World) (m nn : Nat), w.making nn = true →
      (make cfg fuel w m).1.runCount nn = w.runCount nn ∧
      (make cfg fuel w m).1.making nn = true := by
  intro fuel
  induction fuel with
  | zero => intro w m nn hw; exact ⟨rfl, hw⟩
  | succ f ih =>
    intro w m nn hw
    simp only [make]
    split
    next hm => exact ⟨rfl, hw⟩
    next hm =>
      have hmn : m ≠ nn := by
        intro h
        rw [h] at hm
        exact hm hw
      have hw1 : ({ w with making := upd w.making m true }).making nn = true := by
        dsimp only []
        rw [upd_other _ _ _ _ (Ne.symm hmn)]
        exact hw
      have hreal := realMake_protected cfg (make cfg f) m nn hmn
        (fun w' k hk => ih w' k nn hk) 5
        { w with making := upd w.making m true } UNCHANGED hw1
      split
      next w2 rv heqR =>
        rw [heqR] at hreal
        dsimp only [] at hreal
        have hpost : (upd w2.making m false) nn = true := by
          rw [upd_other _ _ _ _ (Ne.symm hmn)]
          exact hreal.2
      /- the four exit branches share the same `making`/`runCount` values -/
        split
        next hrv =>
          split
          next hfd => exact ⟨hreal.1, hpost⟩
          next hfd => exact ⟨hreal.1, hpost⟩
        next hrv =>
          split
          next hsn => exact ⟨hreal.1, hpost⟩
          next hsn => exact ⟨hreal.1, hpost⟩
      next w2 e heqR =>
        rw [heqR] at hreal
        dsimp only [] at hreal
        exact hreal
      next w2 heqR =>
        rw [heqR] at hreal
        dsimp only [] at hreal
        exact hreal

theorem make_making_ok (cfg : Config) :
    ∀ (fuel : Nat) (w : World) (n rv : Nat),
      (make cfg fuel w n).2 = .ok rv →
      (make cfg fuel w n).1.making = w.making := by
  intro fuel
  induction fuel with
  | zero => intro w n rv h; cases h
  | succ f ih =>
    intro w n rv h
    simp only [make] at h ⊢
    split at h
    next hm => cases h
    next hm =>
      rw [if_neg hm]
      have hmf : w.making n = false := by simpa using hm
      split at h
      next w2 rv2 heqR =>
        have hreal := realMake_making cfg (make cfg f) n
          (fun w' m' rv' hh => ih w' m' rv' hh) 5
          { w with making := upd w.making n true } UNCHANGED rv2 (by rw [heqR])
        rw [heqR] at hreal
        dsimp only [] at hreal
        have hrest : upd w2.making n false = w.making := by
          funext j
          by_cases hj : j = n
          · subst hj
            rw [upd_same, hmf]
          · rw [upd_other _ _ _ _ hj, congrFun hreal j,
              upd_other _ _ _ _ hj]
        split at h
        next hrv =>
          rw [if_pos hrv]
          split at h
          next hfd =>
            rw [if_pos hfd]
            cases h
            exact hrest
          next hfd => cases h
        next hrv =>
          rw [if_neg hrv]
          split at h
          next hsn =>
            rw [if_pos hsn]
            cases h
            exact hrest
          next hsn => cases h
      next w2 e heqR => cases h
      next w2 heqR => cases h

theorem make_runCount_le (cfg : Config) :
    ∀ (fuel : Nat) (w : World) (n : Nat),
      (make cfg fuel w n).1.runCount n ≤ w.runCount n + 5 := by
  intro fuel w n
  cases fuel with
  | zero => exact Nat.le_add_right _ _
  | succ f =>
    simp only [make]
    split
    next hm => exact Nat.le_add_right _ _
    next hm =>
      have hreal := realMake_runCount_le cfg (make cfg f) n
        (fun w' k hk => make_protected cfg f w' k n hk) 5
        { w with making := upd w.making n true } UNCHANGED
        (by dsimp only []; rw [upd_same])
      dsimp only [] at hreal
      split
      next w2 rv heqR =>
        rw [heqR] at hreal
        dsimp only [] at hreal
        split
        next hrv =>
          split
          next hfd => exact hreal
          next hfd => exact hreal
        next hrv =>
          split
          next hsn => exact hreal
          next hsn => exact hreal
      next w2 e heqR =>
        rw [heqR] at hreal
        dsimp only [] at hreal
        exact hreal
      next w2 heqR =>
        rw [heqR] at hreal
        dsimp only [] at hreal
        exact hreal

theorem freeCount_congr (cfg : Config) (w w' : World)
    (h : ∀ j, w.making j = w'.making j) : freeCount cfg w = freeCount cfg w' := by
  unfold freeCount
  congr 1
  apply Finset.filter_congr
  intro m _
  rw [h m]

theorem freeCount_pos (cfg : Config) (w : World) (n : Nat)
    (hn : n < cfg.numNodes) (hm : w.making n = false) : 0 < freeCount cfg w :=
  Finset.card_pos.mpr
    ⟨n, Finset.mem_filter.mpr ⟨Finset.mem_range.mpr hn, hm⟩⟩

theorem freeCount_upd_true (cfg : Config) (w : World) (n : Nat)
    (hn : n < cfg.numNodes) (hm : w.making n = false) :
    freeCount cfg { w with making := upd w.making n true } =
      freeCount cfg w - 1 := by
  unfold freeCount
  have hset :
      ((Finset.range cfg.numNodes).filter fun m => upd w.making n true m = false) =
        ((Finset.range cfg.numNodes).filter fun m => w.making m = false).erase n := by
    ext m
    by_cases hmn : m = n
    · subst hmn
      simp [upd]
    · simp [Finset.mem_filter, Finset.mem_erase, upd, hmn]
  rw [hset, Finset.card_erase_of_mem
    (Finset.mem_filter.mpr ⟨Finset.mem_range.mpr hn, hm⟩)]

/-- Fuel sufficiency: `make` with fuel at least the number of
not-currently-making nodes never exhausts the recursion bound, so the
Python recursion (whose depth this fuel models) terminates on every graph,
cyclic or not. -/
theorem make_nf (cfg : Config)
    (Hprod : ∀ p m, cfg.producer p = some m → m < cfg.numNodes) :
    ∀ (fuel : Nat) (w : World) (n : Nat), n < cfg.numNodes →
      w.making n = false → freeCount cfg w ≤ fuel →
      (make cfg fuel w n).2 ≠ .fuel := by
  intro fuel
  induction fuel with
  | zero =>
    intro w n hn hm hf
    have := freeCount_pos cfg w n hn hm
    omega
  | succ f ih =>
    intro w n hn hm hf
    simp only [make]
    split
    next hmk => simp
    next hmk =>
      have hbase : ∀ j, ({ w with making := upd w.making n true } : World).making j =
          ({ w with making := upd w.making n true } : World).making j := fun _ => rfl
      have hfree1 : freeCount cfg { w with making := upd w.making n true } ≤ f := by
        rw [freeCount_upd_true cfg w n hn hm]
        omega
      have hreal := realMake_nf cfg (make cfg f) n
        { w with making := upd w.making n true }
        (fun w' m' rv' hh => make_making_ok cfg f w' m' rv' hh)
        (fun w' m' hpw hm' ⟨p, hp⟩ => by
          have hfw' : freeCount cfg w' = freeCount cfg { w with making := upd w.making n true } :=
            freeCount_congr cfg w' _ hpw
          exact ih w' m' (Hprod p m' hp) hm' (by omega))
        5 { w with making := upd w.making n true } UNCHANGED hbase
      split
      next w2 rv heqR =>
        split
        next hrv =>
          split
          next hfd => simp
          next hfd => simp
        next hrv =>
          split
          next hsn => simp
          next hsn => simp
      next w2 e heqR => simp
      next w2 heqR =>
        rw [heqR] at hreal
        exact (hreal.1 rfl).elim

theorem snapPhase_inv (cfg : Config) (w : World) (n : Nat)
    (hInv : ∀ k cs, w.snapshots k = some cs → cs.length = (cfg.sources k).length) :
    ∀ k cs, (snapPhase w n (cfg.sources n)).world.snapshots k = some cs →
      cs.length = (cfg.sources k).length := by
  intro k cs hk
  obtain ⟨fl, rec, hw, hother, hself⟩ := snapPhase_world w n (cfg.sources n)
  rw [hw] at hk
  dsimp only [] at hk
  by_cases hkn : k = n
  · subst hkn
    rcases hself with hs | ⟨cs2, hcs2, hlen⟩
    · exact hInv k cs (by rw [← hs]; exact hk)
    · rw [hcs2] at hk
      cases hk
      exact hlen
  · exact hInv k cs (by rw [← hother k hkn]; exact hk)

theorem runPhase_inv (cfg : Config) (w : World) (n : Nat)
    (hInv : ∀ k cs, w.snapshots k = some cs → cs.length = (cfg.sources k).length) :
    ∀ k cs, (runPhase cfg w n).world.snapshots k = some cs →
      cs.length = (cfg.sources k).length := by
  intro k cs hk
  obtain ⟨fs', rc, sn, fd, hw, _, _, hother, hself, _⟩ := runPhase_world cfg w n
  rw [hw] at hk
  dsimp only [] at hk
  by_cases hkn : k = n
  · subst hkn
    rcases hself with hs | hs
    · exact hInv k cs (by rw [← hs]; exact hk)
    · rw [hs] at hk
      cases hk
  · exact hInv k cs (by rw [← hother k hkn]; exact hk)

theorem makeSources_inv (cfg : Config) (mk : Mk) (n : Nat)
    (Hmk : ∀ w m, (∀ k cs, w.snapshots k = some cs → cs.length = (cfg.sources k).length) →
       ∀ k cs, (mk w m).1.snapshots k = some cs → cs.length = (cfg.sources k).length) :
    ∀ (srcs : List Path) (w : World) (rv : Nat),
      (∀ k cs, w.snapshots k = some cs → cs.length = (cfg.sources k).length) →
      ∀ k cs, (makeSources cfg mk n w srcs rv).1.snapshots k = some cs →
        cs.length = (cfg.sources k).length := by
  intro srcs
  induction srcs with
  | nil => intro w rv hInv; exact hInv
  | cons p rest ih =>
    intro w rv hInv
    simp only [makeSources]
    split
    next heqp => exact ih w rv hInv
    next m heqp =>
      split
      next hm => exact ih w rv hInv
      next hm =>
        have hchild := Hmk w m hInv
        split
        next w1 srv heqc =>
          rw [heqc] at hchild
          dsimp only [] at hchild
          split
          next hsrv => exact hchild
          next hsrv =>
            split
            next hsrv2 => exact ih w1 CHANGED hchild
            next hsrv2 => exact ih w1 rv hchild
        next w1 r hne heqc =>
          rw [heqc] at hchild
          dsimp only [] at hchild
          exact hchild

theorem realMake_inv (cfg : Config) (mk : Mk) (n : Nat)
    (Hmk : ∀ w m, (∀ k cs, w.snapshots k = some cs → cs.length = (cfg.sources k).length) →
       ∀ k cs, (mk w m).1.snapshots k = some cs → cs.length = (cfg.sources k).length) :
    ∀ (patience : Nat) (w : World) (rv : Nat),
      (∀ k cs, w.snapshots k = some cs → cs.length = (cfg.sources k).length) →
      ∀ k cs, (realMake cfg mk n patience w rv).1.snapshots k = some cs →
        cs.length = (cfg.sources k).length := by
  intro patience
  induction patience with
  | zero => intro w rv hInv; exact hInv
  | succ p ih =>
    intro w rv hInv
    simp only [realMake]
    split
    next w1 rv1 heqS =>
      have h1 := makeSources_inv cfg mk n Hmk (cfg.sources n) w rv hInv
      rw [heqS] at h1
      dsimp only [] at h1
      split
      next hrv1 => exact h1
      next hrv1 =>
        split
        next w2 heqP =>
          have h2 := snapPhase_inv cfg w1 n h1
          rw [heqP] at h2
          simp only [SnapOut.world] at h2
          exact h2
        next w2 e heqP =>
          have h2 := snapPhase_inv cfg w1 n h1
          rw [heqP] at h2
          simp only [SnapOut.world] at h2
          exact h2
        next w2 heqP =>
          have h2 := snapPhase_inv cfg w1 n h1
          rw [heqP] at h2
          simp only [SnapOut.world] at h2
          split
          next w3 heqR =>
            have h3 := runPhase_inv cfg w2 n h2
            rw [heqR] at h3
            simp only [IterOut.world] at h3
            exact ih w3 CHANGED h3
          next w3 r heqR =>
            have h3 := runPhase_inv cfg w2 n h2
            rw [heqR] at h3
            simp only [IterOut.world] at h3
            exact h3
    next w1 e heqS =>
      have h1 := makeSources_inv cfg mk n Hmk (cfg.sources n) w rv hInv
      rw [heqS] at h1
      dsimp only [] at h1
      exact h1
    next w1 heqS =>
      have h1 := makeSources_inv cfg mk n Hmk (cfg.sources n) w rv hInv
      rw [heqS] at h1
      dsimp only [] at h1
      exact h1

theorem make_inv (cfg : Config) :
    ∀ (fuel : Nat) (w : World) (n : Nat),
      (∀ k cs, w.snapshots k = some cs → cs.length = (cfg.sources k).length) →
      ∀ k cs, (make cfg fuel w n).1.snapshots k = some cs →
        cs.length = (cfg.sources k).length := by
  intro fuel
  induction fuel with
  | zero => intro w n hInv; exact hInv
  | succ f ih =>
    intro w n hInv
    simp only [make]
    split
    next hm => exact hInv
    next hm =>
      have hreal := realMake_inv cfg (make cfg f) n
        (fun w' m' hI => ih w' m' hI) 5
        { w with making := upd w.making n true } UNCHANGED hInv
      split
      next w2 rv heqR =>
        rw [heqR] at hreal
        dsimp only [] at hreal
        split
        next hrv =>
          split
          next hfd => exact hreal
          next hfd => exact hreal
        next hrv =>
          split
          next hsn => exact hreal
          next hsn => exact hreal
      next w2 e heqR =>
        rw [heqR] at hreal
        dsimp only [] at hreal
        exact hreal
      next w2 heqR =>
        rw [heqR] at hreal
        dsimp only [] at hreal
        exact hreal

/-- Claim C2 counterexample: invoking `make` on a node whose `making` flag
is already true does not return `UNCHANGED`; it raises the reentrancy
assertion of depend.py line 154 (cycle pruning happens at the call site in
`real_make`, which skips such sources without calling `make`). -/
theorem make_on_making_asserts :
    (make (altCfg [0] [1]) 1 altWMaking 0).2 = .exn "assert not self.making" ∧
    (make (altCfg [0] [1]) 1 altWMaking 0).2 ≠ .ok UNCHANGED := by decide

/-- Claim C2 (amended): `make` terminates on every dependency graph,
cyclic or not — fuel equal to the number of not-currently-making nodes is
never exhausted, which bounds the recursion depth; a source whose producer
is already being made is pruned by the caller, contributing neither
`CHANGED` nor an error to the loop; and `make` invoked on a node whose
`making` flag is already true raises the reentrancy assertion (rather than
returning `UNCHANGED` as the claim stated). -/
theorem make_terminates_and_prunes_cycles :
    (∀ (cfg : Config) (fuel : Nat) (w : World) (n : Nat),
       (∀ p m, cfg.producer p = some m → m < cfg.numNodes) →
       n < cfg.numNodes → w.making n = false → freeCount cfg w ≤ fuel →
       (make cfg fuel w n).2 ≠ .fuel) ∧
    (∀ (cfg : Config) (mk : Mk) (n : Nat) (w : World) (p : Path)
       (rest : List Path) (rv m : Nat), cfg.producer p = some m →
       w.making m = true →
       makeSources cfg mk n w (p :: rest) rv = makeSources cfg mk n w rest rv) ∧
    (∀ (cfg : Config) (fuel : Nat) (w : World) (n : Nat), w.making n = true →
       make cfg (fuel + 1) w n = (w, .exn "assert not self.making")) :=
  ⟨fun cfg fuel w n h1 h2 h3 h4 => make_nf cfg h1 fuel w n h2 h3 h4,
   fun cfg mk n w p rest rv m hp hm => makeSources_prune cfg mk n w p rest rv m hp hm,
   fun cfg fuel w n hm => by simp [make, hm]⟩

/-- Witness for the termination claim: the one-node alternating graph with
fuel 2 does not exhaust the bound. -/
theorem make_terminates_and_prunes_cycles_witness :
    (make (altCfg [0] [1]) 2 (altW [0]) 0).2 ≠ .fuel :=
  make_terminates_and_prunes_cycles.1 (altCfg [0] [1]) 2 (altW [0]) 0
    (by
      intro p m hp
      dsimp only [altCfg] at hp
      split at hp
      · cases hp
        decide
      · cases hp)
    (by decide) (by decide) (by decide)

/-- Claim C5 counterexample: an exception propagating out of `real_make`
(here the `vanished` snapshot assertion) leaves the node's `making` flag
true — `Node.make` has no `try`/`finally` around `real_make`, so not every
exit path clears the flag. -/
theorem make_exception_leaves_making_set :
    (make (altCfg [0] [1]) 1 altWVanish 0).2 = .exn "vanished" ∧
    (make (altCfg [0] [1]) 1 altWVanish 0).1.making 0 = true := by decide

/-- Claim C5 (amended): every normal exit of `make` — success, no-op, or a
build failure reported as `ERROR` — leaves the node's `making` flag false,
and the snapshot record of every node is always either absent or a fully
written tuple with exactly one fingerprint per source (never partially
written); but an exception propagating out of `real_make` leaves the
`making` flag true, as the vanished-source world witnesses. -/
theorem make_normal_exit_clears_making :
    (∀ (cfg : Config) (fuel : Nat) (w : World) (n rv : Nat),
       w.making n = false → (make cfg fuel w n).2 = .ok rv →
       (make cfg fuel w n).1.making n = false) ∧
    (∀ (cfg : Config) (fuel : Nat) (w : World) (n m : Nat) (cs : List Checksum),
       (∀ k cs', w.snapshots k = some cs' → cs'.length = (cfg.sources k).length) →
       (make cfg fuel w n).1.snapshots m = some cs →
       cs.length = (cfg.sources m).length) ∧
    (make (altCfg [0] [1]) 1 altWVanish 0).1.making 0 = true := by
  refine ⟨?_, ?_, by decide⟩
  · intro cfg fuel w n rv hm h
    rw [congrFun (make_making_ok cfg fuel w n rv h) n]
    exact hm
  · intro cfg fuel w n m cs hInv h
    exact make_inv cfg fuel w n hInv m cs h

/-- Witness for the normal-exit claim: the unchanged one-node build returns
normally and clears `making`. -/
theorem make_normal_exit_clears_making_witness :
    (make (altCfg [0] [1]) 1 altWTouched 0).1.making 0 = false :=
  make_normal_exit_clears_making.1 (altCfg [0] [1]) 1 altWTouched 0 UNCHANGED
    (by decide) (by decide)

/-- Claim C6: a failing recipe run makes `make` set `failed_dep` to the node
itself, clear the node's snapshot record (the code's "products not existing"
marker, forcing a rebuild next time), and return `ERROR`; the failure
propagates to every ancestor `make` call, which copies the child's
`failed_dep` and stops without processing its remaining sources or invoking
any further recipe; and `LaTeXDep.compile` reports non-success when the
external tool exits zero but the primary product is missing. -/
theorem recipe_failure_attribution :
    ((make failCfg 3 failW 2).2 = .ok ERROR ∧
     (make failCfg 3 failW 2).1.failed_dep 2 = some 0 ∧
     (make failCfg 3 failW 2).1.failed_dep 0 = some 0 ∧
     (make failCfg 3 failW 2).1.snapshots 0 = none ∧
     (make failCfg 3 failW 2).1.runCount 0 = 1 ∧
     (make failCfg 3 failW 2).1.runCount 1 = 0 ∧
     (make failCfg 3 failW 2).1.runCount 2 = 0) ∧
    (∀ (cfg : Config) (mk : Mk) (n : Nat) (w : World) (p : Path)
       (rest : List Path) (rv m : Nat) (w1 : World),
       cfg.producer p = some m → w.making m = false →
       mk w m = (w1, .ok ERROR) →
       makeSources cfg mk n w (p :: rest) rv =
         ({ w1 with failed_dep := upd w1.failed_dep n (w1.failed_dep m) }, .ok ERROR)) ∧
    (∀ (cfg : Config) (w : World) (n : Nat) (fs' : Fs),
       cfg.run n w.fs = (false, fs') →
       (cfg.isLaTeXDep n || (cfg.sources n).all fun p => (w.fs p).isSome) = true →
       runPhase cfg w n =
         .stop { w with fs := fs',
                        runCount := upd w.runCount n (w.runCount n + 1),
                        failed_dep := upd w.failed_dep n (some n),
                        snapshots := upd w.snapshots n none } (.ok ERROR)) ∧
    Latex.compile_ok true true false false = false := by
  refine ⟨by decide, ?_, ?_, by decide⟩
  · intro cfg mk n w p rest rv m w1 hp hm hc
    exact makeSources_child_error cfg mk n w p rest rv m w1 hp hm hc
  · intro cfg w n fs' hrun hcond
    have hneg : (!cfg.isLaTeXDep n &&
        !((cfg.sources n).all fun p => (w.fs p).isSome)) = false := by
      rw [← Bool.not_or, hcond]
      rfl
    simp [runPhase, hneg, hrun]

/-- Witness for the recipe-failure claim: the failing node of `failCfg`
run directly through `runPhase`. -/
theorem recipe_failure_attribution_witness :
    runPhase failCfg failW 0 =
      .stop { failW with fs := failW.fs,
                         runCount := upd failW.runCount 0 (failW.runCount 0 + 1),
                         failed_dep := upd failW.failed_dep 0 (some 0),
                         snapshots := upd failW.snapshots 0 none } (.ok ERROR) :=
  recipe_failure_attribution.2.2.1 failCfg failW 0 failW.fs rfl (by decide)

/-- One patience iteration of the alternating node after `k ≥ 1` runs: the
source now holds `x`, the snapshot memo and record still hold the digest of
`y`; the comparison re-hashes, sees a new digest, re-records, and the recipe
rewrites the source to `z` (the alternation step), entering the next
iteration. -/
theorem alt_step (a b x y z : Bytes) (mk : Mk) (p k : Nat) (hk : 1 ≤ k)
    (hd : _checksum_algorithm x ≠ _checksum_algorithm y)
    (htog : (if x = a then b else a) = z) :
    realMake (altCfg a b) mk 0 (p + 1) (altMid x y k) CHANGED =
      realMake (altCfg a b) mk 0 p (altMid z x (k + 1)) CHANGED := by
  have hd' : _checksum_algorithm y ≠ _checksum_algorithm x := Ne.symm hd
  have h1 : ¬(k - 1 = k) := by omega
  have h2 : k - 1 < k := by omega
  have h3 := checksum_algorithm_ne_missing x
  simp [realMake, makeSources, altCfg, altMid, snapPhase, snapshotsDiffer,
    snapshotAll, wsnapshot, runPhase, Contents.snapshot, upd, CHANGED, ERROR,
    htog, h1, h2, h3, hd, hd', if_true, if_false]
  congr 1
  refine World.ext ?_ ?_ ?_ ?_ ?_ ?_ ?_
  · funext j
    by_cases hj : j = "src" <;> simp [hj]
  · funext j
    by_cases hj : j = "src" <;> simp [upd, hj]
  · funext j
    by_cases hj : j = 0 <;> simp [upd, hj]
  · rfl
  · rfl
  · funext j
    by_cases hj : j = 0 <;> simp [upd, hj]
  · rfl


/-- The first patience iteration of the alternating node: no snapshot
record exists yet, so the sources are recorded and the recipe runs once,
rewriting the source to `b`. -/
theorem alt_first (a b : Bytes) (mk : Mk) (p : Nat) :
    realMake (altCfg a b) mk 0 (p + 1)
      { fs := (altW a).fs
        files := (altW a).files
        snapshots := (altW a).snapshots
        making := upd (altW a).making 0 true
        failed_dep := (altW a).failed_dep
        runCount := (altW a).runCount
        settleFailed := (altW a).settleFailed } UNCHANGED =
      realMake (altCfg a b) mk 0 p (altMid b a 1) CHANGED := by
  simp [realMake, makeSources, altCfg, altW, altMid, snapPhase, snapshotAll,
    wsnapshot, runPhase, Contents.snapshot, upd, freshFile, UNCHANGED, CHANGED,
    ERROR]
  congr 1
  refine World.ext ?_ ?_ ?_ ?_ ?_ ?_ ?_
  · funext j
    by_cases hj : j = "src" <;> simp [hj]
  · funext j
    by_cases hj : j = "src" <;> simp [upd, hj]
  · funext j
    by_cases hj : j = 0 <;> simp [upd, hj]
  · rfl
  · rfl
  · funext j
    by_cases hj : j = 0 <;> simp [upd, hj]
  · rfl

/-- Patience exhaustion: with the countdown at zero, `real_make` emits the
"contents does not seem to settle" diagnostic, sets `failed_dep` to the node
itself, and returns `ERROR` (depend.py lines 227-230). -/
theorem alt_settle (a b : Bytes) (mk : Mk) (w : World) (rv : Nat) :
    realMake (altCfg a b) mk 0 0 w rv =
      ({ w with
          failed_dep := upd w.failed_dep 0 (some 0)
          settleFailed := 0 :: w.settleFailed }, .ok ERROR) := rfl

/-- Claim C1: a node whose recipe deterministically alternates the
fingerprint of the node's own source on each invocation makes `make` invoke
the recipe exactly 5 times (the patience bound) and then fail with `ERROR`,
`failed_dep` set to the node itself, and the "does not settle" diagnostic
attributed to the node; and, over every dependency set, one `make` call on a
node never runs that node's recipe more than 5 times. -/
theorem alternating_node_fails_after_five (a b : Bytes)
    (hd : _checksum_algorithm a ≠ _checksum_algorithm b) :
    (make (altCfg a b) 1 (altW a) 0).2 = .ok ERROR ∧
    (make (altCfg a b) 1 (altW a) 0).1.runCount 0 = 5 ∧
    (make (altCfg a b) 1 (altW a) 0).1.failed_dep 0 = some 0 ∧
    (make (altCfg a b) 1 (altW a) 0).1.settleFailed = [0] ∧
    (∀ (cfg : Config) (fuel : Nat) (w : World) (n : Nat),
      (make cfg fuel w n).1.runCount n ≤ w.runCount n + 5) := by
  have hab : ¬(b = a) := fun h => hd (by rw [h])
  have hmk : ¬((altW a).making 0 = true) := by simp [altW]
  have hreal : realMake (altCfg a b) (fun w _ => (w, MakeResult.fuel)) 0 5
      { fs := (altW a).fs
        files := (altW a).files
        snapshots := (altW a).snapshots
        making := upd (altW a).making 0 true
        failed_dep := (altW a).failed_dep
        runCount := (altW a).runCount
        settleFailed := (altW a).settleFailed } UNCHANGED =
      ({ altMid b a 5 with
          failed_dep := upd (altMid b a 5).failed_dep 0 (some 0)
          settleFailed := 0 :: (altMid b a 5).settleFailed }, .ok ERROR) := by
    rw [show (5:Nat) = 4+1 from rfl, alt_first a b _ 4,
        alt_step a b b a a _ 3 1 (by omega) (Ne.symm hd) (if_neg hab),
        alt_step a b a b b _ 2 2 (by omega) hd (if_pos rfl),
        alt_step a b b a a _ 1 3 (by omega) (Ne.symm hd) (if_neg hab),
        alt_step a b a b b _ 0 4 (by omega) hd (if_pos rfl),
        alt_settle]
  refine ⟨?_, ?_, ?_, ?_, fun cfg fuel w n => make_runCount_le cfg fuel w n⟩ <;>
  · simp only [make]
    rw [if_neg hmk, hreal]
    simp [altMid, upd, ERROR]

/-- Witness for the patience-exhaustion claim with concrete alternating
contents. -/
theorem alternating_node_fails_after_five_witness :
    (make (altCfg [0] [1]) 1 (altW [0]) 0).2 = .ok ERROR ∧
    (make (altCfg [0] [1]) 1 (altW [0]) 0).1.runCount 0 = 5 :=
  ⟨(alternating_node_fails_after_five [0] [1] (by decide)).1,
   (alternating_node_fails_after_five [0] [1] (by decide)).2.1⟩

theorem mkline_decomp (c : Checksum) (p : Path) (hwf : WfChecksum c) :
    (("  ".data).isPrefixOf ("  " ++ cs2str c ++ " " ++ p).data = true) ∧
    ((("  " ++ cs2str c ++ " " ++ p).data.drop 2).take cs_str_len) = (cs2str c).data ∧
    ("  " ++ cs2str c ++ " " ++ p).data.drop (2 + cs_str_len + 1) = p.data := by
  have hdata : ("  " ++ cs2str c ++ " " ++ p).data =
      ' ' :: ' ' :: ((cs2str c).data ++ (' ' :: p.data)) := by
    show "  ".data ++ (cs2str c).data ++ " ".data ++ p.data = _
    simp
  have hlen := cs2str_data_length c hwf
  refine ⟨?_, ?_, ?_⟩
  · rw [hdata]
    show (' ' :: ' ' :: ([] : List Char)).isPrefixOf _ = true
    simp [List.isPrefixOf]
  · rw [hdata, List.drop_succ_cons, List.drop_succ_cons, List.drop_zero,
      show cs_str_len = (cs2str c).data.length by rw [hlen, cs_str_len]]
    exact List.take_left _ _
  · rw [hdata, show 2 + cs_str_len + 1 = cs_str_len + 1 + 1 + 1 by omega,
      List.drop_succ_cons, List.drop_succ_cons,
      show cs_str_len + 1 = ((cs2str c).data ++ [' ']).length by simp [hlen, cs_str_len],
      show (cs2str c).data ++ (' ' :: p.data) =
        ((cs2str c).data ++ [' ']) ++ p.data by simp]
    exact List.drop_left _ _

theorem parseCacheAux_zip (prod : Path) (rest : List String) :
    ∀ (snaps : List Checksum) (srcs : List Path) (acc : List (Checksum × Path)),
      snaps.length = srcs.length → (∀ c ∈ snaps, WfChecksum c) →
      parseCacheAux prod acc
        ((List.zipWith (fun c p => "  " ++ cs2str c ++ " " ++ p) snaps srcs) ++ rest) =
        parseCacheAux prod ((snaps.zip srcs).reverse ++ acc) rest := by
  intro snaps
  induction snaps with
  | nil =>
    intro srcs acc hlen _
    simp
  | cons c cs ih =>
    intro srcs acc hlen hwf
    cases srcs with
    | nil => cases hlen
    | cons p ps =>
      obtain ⟨hpre, htake, hdrop⟩ := mkline_decomp c p (hwf c (by simp))
      simp only [List.zipWith_cons_cons, List.cons_append, parseCacheAux,
        if_pos hpre, htake, hdrop]
      rw [str2cs_cs2str c (hwf c (by simp))]
      show parseCacheAux prod ((c, p) :: acc)
        (List.zipWith (fun c p => "  " ++ cs2str c ++ " " ++ p) cs ps ++ rest) = _
      rw [ih ps ((c, p) :: acc) (by simpa using hlen)
        (fun x hx => hwf x (by simp [hx]))]
      congr 1
      simp

theorem parseCacheAux_flat (cfg : Config) (w : World) :
    ∀ (nodes : List Nat) (prod : Path) (acc : List (Checksum × Path)),
      (∀ n ∈ nodes, ¬ ("  ".data).isPrefixOf (cfg.primary n).data = true) →
      (∀ n ∈ nodes, ∀ cs, w.snapshots n = some cs →
        cs.length = (cfg.sources n).length ∧ ∀ c ∈ cs, WfChecksum c) →
      parseCacheAux prod acc (nodes.flatMap (nodeCacheLines cfg w)) =
        (prod, acc.reverse.map Prod.fst, acc.reverse.map Prod.snd) ::
          nodes.filterMap (fun n => (w.snapshots n).map
            fun snaps => (cfg.primary n, snaps, cfg.sources n)) := by
  intro nodes
  induction nodes with
  | nil =>
    intro prod acc _ _
    rfl
  | cons n rest ih =>
    intro prod acc hpre hwf
    rcases hsn : w.snapshots n with _ | snaps
    · simp only [List.flatMap_cons, nodeCacheLines, hsn, List.nil_append,
        List.filterMap_cons, Option.map_none]
      exact ih prod acc (fun m hm => hpre m (by simp [hm]))
        (fun m hm => hwf m (by simp [hm]))
    · have hw := hwf n (by simp) snaps hsn
      simp only [List.flatMap_cons, nodeCacheLines, hsn, List.cons_append,
        List.append_assoc, List.filterMap_cons, Option.map_some]
      rw [parseCacheAux]
      rw [if_neg (hpre n (by simp))]
      rw [parseCacheAux_zip (cfg.primary n) _ snaps (cfg.sources n) []
        hw.1 hw.2]
      rw [ih (cfg.primary n) ((snaps.zip (cfg.sources n)).reverse ++ [])
        (fun m hm => hpre m (by simp [hm])) (fun m hm => hwf m (by simp [hm]))]
      simp [List.map_fst_zip snaps (cfg.sources n) hw.1.le,
        List.map_snd_zip snaps (cfg.sources n) hw.1.ge]

theorem parseCacheEntries_flat (cfg : Config) (w : World) :
    ∀ (nodes : List Nat),
      (∀ n ∈ nodes, ¬ ("  ".data).isPrefixOf (cfg.primary n).data = true) →
      (∀ n ∈ nodes, ∀ cs, w.snapshots n = some cs →
        cs.length = (cfg.sources n).length ∧ ∀ c ∈ cs, WfChecksum c) →
      parseCacheEntries (nodes.flatMap (nodeCacheLines cfg w)) =
        nodes.filterMap (fun n => (w.snapshots n).map
          fun snaps => (cfg.primary n, snaps, cfg.sources n)) := by
  intro nodes
  induction nodes with
  | nil => intro _ _; rfl
  | cons n rest ih =>
    intro hpre hwf
    rcases hsn : w.snapshots n with _ | snaps
    · simp only [List.flatMap_cons, nodeCacheLines, hsn, List.nil_append,
        List.filterMap_cons, Option.map_none]
      exact ih (fun m hm => hpre m (by simp [hm])) (fun m hm => hwf m (by simp [hm]))
    · have hw := hwf n (by simp) snaps hsn
      simp only [List.flatMap_cons, nodeCacheLines, hsn, List.cons_append,
        List.filterMap_cons, Option.map_some]
      simp only [parseCacheEntries]
      rw [parseCacheAux_zip (cfg.primary n) _ snaps (cfg.sources n) [] hw.1 hw.2]
      rw [parseCacheAux_flat cfg w rest (cfg.primary n) _
        (fun m hm => hpre m (by simp [hm])) (fun m hm => hwf m (by simp [hm]))]
      simp [List.map_fst_zip snaps (cfg.sources n) hw.1.le,
        List.map_snd_zip snaps (cfg.sources n) hw.1.ge]

theorem applyCacheEntry_skip_noprod (cfg : Config) (v : World)
    (product : Path) (snaps : List Checksum) (srcs : List Path)
    (hp : cfg.producer product = none) :
    applyCacheEntry cfg v (product, snaps, srcs) = v := by
  simp only [applyCacheEntry, hp]

theorem applyCacheEntry_skip_src (cfg : Config) (v : World)
    (product : Path) (snaps : List Checksum) (srcs : List Path) (m : Nat)
    (hp : cfg.producer product = some m) (h : cfg.sources m ≠ srcs) :
    applyCacheEntry cfg v (product, snaps, srcs) = v := by
  simp only [applyCacheEntry, hp, if_pos h]

theorem applyCacheEntry_skip_present (cfg : Config) (v : World)
    (product : Path) (snaps : List Checksum) (srcs : List Path) (m : Nat)
    (hp : cfg.producer product = some m) (h : (v.snapshots m).isSome) :
    applyCacheEntry cfg v (product, snaps, srcs) = v := by
  simp only [applyCacheEntry, hp]
  by_cases hsrc : cfg.sources m ≠ srcs
  · rw [if_pos hsrc]
  · rw [if_neg hsrc, if_pos h]

theorem applyCacheEntry_install (cfg : Config) (v : World)
    (product : Path) (snaps : List Checksum) (srcs : List Path) (m : Nat)
    (hp : cfg.producer product = some m) (hsrc : cfg.sources m = srcs)
    (hnone : v.snapshots m = none) :
    applyCacheEntry cfg v (product, snaps, srcs) =
      { v with snapshots := upd v.snapshots m (some snaps) } := by
  simp only [applyCacheEntry, hp]
  rw [if_neg (by simp [hsrc])]
  rw [if_neg (by simp [hnone])]

theorem applyCacheEntry_keeps_some (cfg : Config) (v : World)
    (e : Path × List Checksum × List Path) (j : Nat) (s : List Checksum)
    (h : v.snapshots j = some s) :
    (applyCacheEntry cfg v e).snapshots j = some s := by
  obtain ⟨product, snaps, srcs⟩ := e
  rcases hp : cfg.producer product with _ | m
  · rw [applyCacheEntry_skip_noprod cfg v product snaps srcs hp]
    exact h
  · by_cases h1 : cfg.sources m ≠ srcs
    · rw [applyCacheEntry_skip_src cfg v product snaps srcs m hp h1]
      exact h
    · by_cases h2 : (v.snapshots m).isSome
      · rw [applyCacheEntry_skip_present cfg v product snaps srcs m hp h2]
        exact h
      · rw [applyCacheEntry_install cfg v product snaps srcs m hp
          (not_not.mp h1) (Option.not_isSome_iff_eq_none.mp h2)]
        rcases eq_or_ne j m with rfl | hne
        · rw [h] at h2
          simp at h2
        · show upd v.snapshots m (some snaps) j = some s
          rw [upd_other _ _ _ _ hne]
          exact h

theorem foldl_applyCacheEntry_keeps_some (cfg : Config) :
    ∀ (es : List (Path × List Checksum × List Path)) (v : World) (j : Nat)
      (s : List Checksum), v.snapshots j = some s →
      (es.foldl (applyCacheEntry cfg) v).snapshots j = some s := by
  intro es
  induction es with
  | nil => intro v j s h; exact h
  | cons e rest ih =>
    intro v j s h
    exact ih _ j s (applyCacheEntry_keeps_some cfg v e j s h)

theorem applyCacheEntry_inv (cfg : Config) (w v : World)
    (e : Path × List Checksum × List Path)
    (he : ∀ m, cfg.producer e.1 = some m → w.snapshots m = some e.2.1)
    (hv : ∀ j, v.snapshots j = none ∨ v.snapshots j = w.snapshots j) :
    ∀ j, (applyCacheEntry cfg v e).snapshots j = none ∨
      (applyCacheEntry cfg v e).snapshots j = w.snapshots j := by
  obtain ⟨product, snaps, srcs⟩ := e
  intro j
  rcases hp : cfg.producer product with _ | m
  · rw [applyCacheEntry_skip_noprod cfg v product snaps srcs hp]
    exact hv j
  · by_cases h1 : cfg.sources m ≠ srcs
    · rw [applyCacheEntry_skip_src cfg v product snaps srcs m hp h1]
      exact hv j
    · by_cases h2 : (v.snapshots m).isSome
      · rw [applyCacheEntry_skip_present cfg v product snaps srcs m hp h2]
        exact hv j
      · rw [applyCacheEntry_install cfg v product snaps srcs m hp
          (not_not.mp h1) (Option.not_isSome_iff_eq_none.mp h2)]
        rcases eq_or_ne j m with rfl | hne
        · right
          show upd v.snapshots j (some snaps) j = w.snapshots j
          rw [upd_same, he j hp]
        · show upd v.snapshots m (some snaps) j = none ∨
            upd v.snapshots m (some snaps) j = w.snapshots j
          rw [upd_other _ _ _ _ hne]
          exact hv j

theorem foldl_applyCacheEntry_inv (cfg : Config) (w : World) :
    ∀ (es : List (Path × List Checksum × List Path)) (v : World),
      (∀ e ∈ es, ∀ m, cfg.producer e.1 = some m → w.snapshots m = some e.2.1) →
      (∀ j, v.snapshots j = none ∨ v.snapshots j = w.snapshots j) →
      ∀ j, (es.foldl (applyCacheEntry cfg) v).snapshots j = none ∨
        (es.foldl (applyCacheEntry cfg) v).snapshots j = w.snapshots j := by
  intro es
  induction es with
  | nil => intro v _ hv j; exact hv j
  | cons e rest ih =>
    intro v he hv j
    exact ih _ (fun x hx => he x (by simp [hx]))
      (applyCacheEntry_inv cfg w v e (he e (by simp)) hv) j

theorem foldl_applyCacheEntry_restores (cfg : Config) (w : World)
    (es : List (Path × List Checksum × List Path))
    (he : ∀ e ∈ es, ∀ m, cfg.producer e.1 = some m → w.snapshots m = some e.2.1)
    (n : Nat) (s : List Checksum)
    (hmem : (cfg.primary n, s, cfg.sources n) ∈ es)
    (hprod : cfg.producer (cfg.primary n) = some n)
    (hs : w.snapshots n = some s) (v : World)
    (hv : ∀ j, v.snapshots j = none ∨ v.snapshots j = w.snapshots j) :
    (es.foldl (applyCacheEntry cfg) v).snapshots n = some s := by
  obtain ⟨pre, post, rfl⟩ := List.append_of_mem hmem
  have hinv : ∀ j, (pre.foldl (applyCacheEntry cfg) v).snapshots j = none ∨
      (pre.foldl (applyCacheEntry cfg) v).snapshots j = w.snapshots j :=
    foldl_applyCacheEntry_inv cfg w pre v (fun x hx => he x (by simp [hx])) hv
  rw [List.foldl_append, List.foldl_cons]
  apply foldl_applyCacheEntry_keeps_some
  by_cases h2 : ((pre.foldl (applyCacheEntry cfg) v).snapshots n).isSome
  · rw [applyCacheEntry_skip_present cfg _ _ s (cfg.sources n) n hprod h2]
    rcases hinv n with hnone | heqw
    · rw [hnone] at h2
      simp at h2
    · rw [heqw, hs]
  · rw [applyCacheEntry_install cfg _ _ s (cfg.sources n) n hprod rfl
      (Option.not_isSome_iff_eq_none.mp h2)]
    show upd (pre.foldl (applyCacheEntry cfg) v).snapshots n (some s) n = some s
    rw [upd_same]

theorem load_save_roundtrip (cfg : Config) (w w' : World) (final : Nat)
    (hpre : ∀ n ∈ all_producers cfg final,
      ¬ ("  ".data).isPrefixOf (cfg.primary n).data = true)
    (hprod : ∀ n ∈ all_producers cfg final,
      cfg.producer (cfg.primary n) = some n)
    (hwf : ∀ n ∈ all_producers cfg final, ∀ cs, w.snapshots n = some cs →
      cs.length = (cfg.sources n).length ∧ ∀ c ∈ cs, WfChecksum c)
    (hfresh : ∀ j, w'.snapshots j = none) :
    ∀ n ∈ all_producers cfg final,
      (load_cache cfg w' (save_cache cfg w final)).snapshots n =
        w.snapshots n := by
  intro n hn
  rw [load_cache, save_cache,
    parseCacheEntries_flat cfg w (all_producers cfg final) hpre hwf]
  have he : ∀ e ∈ (all_producers cfg final).filterMap
      (fun m => (w.snapshots m).map
        fun snaps => (cfg.primary m, snaps, cfg.sources m)),
      ∀ m, cfg.producer e.1 = some m → w.snapshots m = some e.2.1 := by
    intro e hee m hm
    rw [List.mem_filterMap] at hee
    obtain ⟨a, ha, hfa⟩ := hee
    rcases hsa : w.snapshots a with _ | snaps
    · rw [hsa] at hfa
      cases hfa
    · rw [hsa] at hfa
      have hfa2 : (cfg.primary a, snaps, cfg.sources a) = e := by
        have h0 : some ((fun snaps =>
            (cfg.primary a, snaps, cfg.sources a)) snaps) = some e := hfa
        injection h0
      subst hfa2
      have hm2 : cfg.producer (cfg.primary a) = some m := hm
      rw [hprod a ha] at hm2
      injection hm2 with hm3
      show w.snapshots m = some snaps
      rw [← hm3]
      exact hsa
  rcases hsn : w.snapshots n with _ | s
  · rcases foldl_applyCacheEntry_inv cfg w _ w' he
        (fun j => Or.inl (hfresh j)) n with h | h
    · exact h
    · rw [h, hsn]
  · exact foldl_applyCacheEntry_restores cfg w _ he n s
      (List.mem_filterMap.mpr ⟨n, hn, by simp [hsn]⟩)
      (hprod n hn) hsn w' (fun j => Or.inl (hfresh j))

/-- Claim C7: the cache round-trips.  First, the fixed-width textual
checksum encoding round-trips on every well-formed checksum, including the
reserved `NO_SUCH_FILE` literal.  Second, for every graph whose reachable
nodes have well-formed records, `save_cache` followed by `load_cache` into a
fresh process with the same node structure restores every reachable node's
snapshot record exactly.  Third, `load_cache` installs a record only when a
producing node is currently registered for the product, that node's current
source-path list is identical to the recorded one, and the node has no
record yet — skipping the entry otherwise.  Fourth, in the concrete
two-node `A`/`B` scenario with unchanged files, the first `make (B)` after
the reload reports `UNCHANGED` without invoking either recipe. -/
theorem cache_round_trip (cfg : Config) (w w' : World) (final : Nat)
    (hpre : ∀ n ∈ all_producers cfg final,
      ¬ ("  ".data).isPrefixOf (cfg.primary n).data = true)
    (hprod : ∀ n ∈ all_producers cfg final,
      cfg.producer (cfg.primary n) = some n)
    (hwf : ∀ n ∈ all_producers cfg final, ∀ cs, w.snapshots n = some cs →
      cs.length = (cfg.sources n).length ∧ ∀ c ∈ cs, WfChecksum c)
    (hfresh : ∀ j, w'.snapshots j = none) :
    (∀ c, WfChecksum c → str2cs (cs2str c) = c) ∧
    (∀ n ∈ all_producers cfg final,
      (load_cache cfg w' (save_cache cfg w final)).snapshots n =
        w.snapshots n) ∧
    (∀ (v : World) (product : Path) (snaps : List Checksum)
      (srcs : List Path),
      (cfg.producer product = none →
        applyCacheEntry cfg v (product, snaps, srcs) = v) ∧
      (∀ m, cfg.producer product = some m → cfg.sources m ≠ srcs →
        applyCacheEntry cfg v (product, snaps, srcs) = v) ∧
      (∀ m, cfg.producer product = some m → (v.snapshots m).isSome →
        applyCacheEntry cfg v (product, snaps, srcs) = v) ∧
      (∀ m, cfg.producer product = some m → cfg.sources m = srcs →
        v.snapshots m = none →
        applyCacheEntry cfg v (product, snaps, srcs) =
          { v with snapshots := upd v.snapshots m (some snaps) })) ∧
    ((make abCfg 3
        (load_cache abCfg abFresh (save_cache abCfg abSaved 1)) 1).2 =
          .ok UNCHANGED ∧
      (make abCfg 3
        (load_cache abCfg abFresh (save_cache abCfg abSaved 1)) 1).1.runCount
          0 = 0 ∧
      (make abCfg 3
        (load_cache abCfg abFresh (save_cache abCfg abSaved 1)) 1).1.runCount
          1 = 0) := by
  refine ⟨Contents.str2cs_cs2str,
    load_save_roundtrip cfg w w' final hpre hprod hwf hfresh, ?_, by decide⟩
  intro v product snaps srcs
  exact ⟨applyCacheEntry_skip_noprod cfg v product snaps srcs,
    fun m hp h => applyCacheEntry_skip_src cfg v product snaps srcs m hp h,
    fun m hp h => applyCacheEntry_skip_present cfg v product snaps srcs m hp h,
    fun m hp hs hn => applyCacheEntry_install cfg v product snaps srcs m hp hs hn⟩

/-- The hypotheses of `cache_round_trip` hold for the concrete two-node
scenario: instantiating it there yields the reload-then-`UNCHANGED`
behaviour with both recipe counters still at zero. -/
theorem cache_round_trip_witness :
    (make abCfg 3
      (load_cache abCfg abFresh (save_cache abCfg abSaved 1)) 1).2 =
        .ok UNCHANGED ∧
    (make abCfg 3
      (load_cache abCfg abFresh (save_cache abCfg abSaved 1)) 1).1.runCount
        0 = 0 ∧
    (make abCfg 3
      (load_cache abCfg abFresh (save_cache abCfg abSaved 1)) 1).1.runCount
        1 = 0 :=
  (cache_round_trip abCfg abSaved abFresh 1 (by decide) (by decide)
    (by
      intro n hn cs hcs
      have hlist : all_producers abCfg 1 = [1, 0] := by decide
      rw [hlist] at hn
      fin_cases hn
      · have h0 : some [Contents._checksum_algorithm [1]] = some cs := hcs
        injection h0 with h1
        rw [← h1]
        refine ⟨by decide, ?_⟩
        intro c hc
        rw [List.mem_singleton] at hc
        rw [hc]
        exact Contents.checksum_algorithm_wf [1]
      · have h0 : some [Contents._checksum_algorithm [0]] = some cs := hcs
        injection h0 with h1
        rw [← h1]
        refine ⟨by decide, ?_⟩
        intro c hc
        rw [List.mem_singleton] at hc
        rw [hc]
        exact Contents.checksum_algorithm_wf [0])
    (fun _ => rfl)).2.2.2

end Depend

namespace Latex

theorem stackTop_of_ne_nil (l : List (Option String)) (h : l ≠ []) :
    ∃ t, stackTop l = some t := by
  cases l with
  | nil => exact absurd rfl h
  | cons t rest => exact ⟨t, rfl⟩

theorem update_fileAux_no_paren :
    ∀ (L : Chars) (stack : List (Option String)) (last : Option String),
      (∀ c ∈ L, c ≠ '(' ∧ c ≠ ')') →
      update_fileAux stack last none L = some (stack, last) := by
  intro L
  induction L with
  | nil => intro stack last _; rfl
  | cons c rest ih =>
    intro stack last h
    have hc := h c (by simp)
    rw [update_fileAux.eq_def]
    split
    next =>
      rename_i h2
      cases h2
    next =>
      rename_i h2
      injection h2 with h1 h2b
      exact absurd h1 hc.1
    next =>
      rename_i h2
      injection h2 with h1 h2b
      exact absurd h1 hc.2
    next =>
      rename_i h2
      injection h2 with h1 h2b
      rw [← h2b]
      exact ih stack last (fun d hd => h d (List.mem_cons_of_mem c hd))
    next =>
      rename_i h1 h2
      cases h2
    next =>
      rename_i h1 h2
      cases h1

theorem parsingStep_total (fl : Flags) (st : PState) (line : String)
    (hne : line.data ≠ []) (hpos : st.pos ≠ []) :
    ∃ out, parsingStep fl st line = some out ∧ out.1.pos = st.pos ∧
      out.1.accu = st.accu := by
  obtain ⟨top, hstack⟩ := stackTop_of_ne_nil st.pos hpos
  simp only [parsingStep]
  split
  next lineG codeG heq =>
    split
    next => exact ⟨_, rfl, rfl, rfl⟩
    next err herr =>
      split
      next =>
        split
        next ln2 hign =>
          split
          next m hm => exact ⟨_, rfl, rfl, rfl⟩
          next hm => exact ⟨_, rfl, rfl, rfl⟩
        next hign =>
          split
          next htop =>
            have h2 : stackTop st.pos = none := htop
            rw [hstack] at h2
            cases h2
          next t htop =>
            split
            next m hm => exact ⟨_, rfl, rfl, rfl⟩
            next hm => exact ⟨_, rfl, rfl, rfl⟩
      next => exact ⟨_, rfl, rfl, rfl⟩
  next heq =>
    split
    next heq2 => exact absurd heq2 hne
    next c cs heq2 =>
      split
      next => exact ⟨_, rfl, rfl, rfl⟩
      next =>
        split
        next =>
          split
          next => exact ⟨_, rfl, rfl, rfl⟩
          next => exact ⟨_, rfl, rfl, rfl⟩
        next =>
          split
          next =>
            split
            next =>
              split
              next htop =>
                have h2 : stackTop st.pos = none := htop
                rw [hstack] at h2
                cases h2
              next t htop => exact ⟨_, rfl, rfl, rfl⟩
            next => exact ⟨_, rfl, rfl, rfl⟩
          next => exact ⟨_, rfl, rfl, rfl⟩

theorem warnContStep_total (fl : Flags) (st : PState) (pre line : String) :
    ∃ out, warnContStep fl st pre line = some out ∧ out.1.pos = st.pos ∧
      out.1.accu = st.accu := by
  simp only [warnContStep]
  split
  next => exact ⟨_, rfl, rfl, rfl⟩
  next =>
    split
    next => exact ⟨_, rfl, rfl, rfl⟩
    next => exact ⟨_, rfl, rfl, rfl⟩

theorem plainStep_total (fl : Flags) (st : PState) (line : String)
    (hpar : ∀ c ∈ line.data, c ≠ '(' ∧ c ≠ ')') (hpos : st.pos ≠ []) :
    ∃ out, plainStep fl st line = some out ∧ out.1.pos = st.pos ∧
      out.1.accu = st.accu := by
  obtain ⟨top, hstack⟩ := stackTop_of_ne_nil st.pos hpos
  simp only [plainStep]
  split
  next ref pg ln heq =>
    split
    next =>
      split
      next htop =>
        rw [hstack] at htop
        cases htop
      next t htop => exact ⟨_, rfl, rfl, rfl⟩
    next => exact ⟨_, rfl, rfl, rfl⟩
  next heq =>
  split
  next text heq2 =>
    split
    next =>
      split
      next htop =>
        rw [hstack] at htop
        cases htop
      next t htop => exact ⟨_, rfl, rfl, rfl⟩
    next => exact ⟨_, rfl, rfl, rfl⟩
  next heq2 =>
  split
  next =>
    split
    next pkgG textG textStart hw =>
      split
      next htop =>
        rw [hstack] at htop
        cases htop
      next t htop => exact ⟨_, rfl, rfl, rfl⟩
    next hw => exact ⟨_, rfl, rfl, rfl⟩
  next =>
  split
  next =>
    split
    next =>
      split
      next htop =>
        rw [hstack] at htop
        cases htop
      next t htop =>
        split
        next => exact ⟨_, rfl, rfl, rfl⟩
        next => exact ⟨_, rfl, rfl, rfl⟩
    next => exact ⟨_, rfl, rfl, rfl⟩
  next =>
  split
  next => exact ⟨_, rfl, rfl, rfl⟩
  next =>
    rw [update_file, update_fileAux_no_paren line.data st.pos st.lastFile hpar]
    exact ⟨_, rfl, rfl, rfl⟩

theorem parseLine_total (fl : Flags) (st : PState) (rawLine : String)
    (hne : rawLine ≠ "") (hpar : ∀ c ∈ rawLine.data, c ≠ '(' ∧ c ≠ ')')
    (hpos : st.pos ≠ []) (haccu : ∀ c ∈ st.accu.data, c ≠ '(' ∧ c ≠ ')') :
    ∃ out, parseLine fl st rawLine = some out ∧ out.1.pos ≠ [] ∧
      ∀ c ∈ out.1.accu.data, c ≠ '(' ∧ c ≠ ')' := by
  have hdne : rawLine.data ≠ [] := by
    intro hd
    exact hne (String.ext hd)
  have hlne : (st.accu ++ rawLine).data ≠ [] := by
    rw [String.data_append]
    intro hd
    exact hdne (List.append_eq_nil.mp hd).2
  have hlpar : ∀ c ∈ (st.accu ++ rawLine).data, c ≠ '(' ∧ c ≠ ')' := by
    intro c hc
    rw [String.data_append] at hc
    rcases List.mem_append.mp hc with h | h
    · exact haccu c h
    · exact hpar c h
  simp only [parseLine]
  split
  next =>
    refine ⟨_, rfl, hpos, ?_⟩
    intro c hc
    have hc2 : c ∈ (st.accu ++ rawLine).data := hc
    exact hlpar c hc2
  next =>
    split
    next hcond =>
      simp only [Bool.and_eq_true, decide_eq_true_eq] at hcond
      exact absurd (congrArg String.data hcond.2) hlne
    next =>
      split
      next => exact ⟨_, rfl, hpos, fun c hc => nomatch hc⟩
      next =>
        split
        next =>
          obtain ⟨out, heq, hp, ha⟩ := parsingStep_total fl
            { st with accu := "" } (st.accu ++ rawLine) hlne hpos
          refine ⟨out, heq, ?_, ?_⟩
          · rw [hp]
            exact hpos
          · rw [ha]
            exact fun c hc => nomatch hc
        next =>
          split
          next => exact ⟨_, rfl, hpos, fun c hc => nomatch hc⟩
          next =>
            split
            next => exact ⟨_, rfl, hpos, fun c hc => nomatch hc⟩
            next =>
              split
              next => exact ⟨_, rfl, hpos, fun c hc => nomatch hc⟩
              next =>
                split
                next => exact ⟨_, rfl, hpos, fun c hc => nomatch hc⟩
                next =>
                  split
                  next pre hwp =>
                    obtain ⟨out, heq, hp, ha⟩ := warnContStep_total fl
                      { st with accu := "" } pre (st.accu ++ rawLine)
                    refine ⟨out, heq, ?_, ?_⟩
                    · rw [hp]
                      exact hpos
                    · rw [ha]
                      exact fun c hc => nomatch hc
                  next hwp =>
                    obtain ⟨out, heq, hp, ha⟩ := plainStep_total fl
                      { st with accu := "" } (st.accu ++ rawLine) hlpar hpos
                    refine ⟨out, heq, ?_, ?_⟩
                    · rw [hp]
                      exact hpos
                    · rw [ha]
                      exact fun c hc => nomatch hc

theorem parseFrom_total (fl : Flags) :
    ∀ (lines : List String) (st : PState),
      (∀ l ∈ lines, l ≠ "" ∧ ∀ c ∈ l.data, c ≠ '(' ∧ c ≠ ')') →
      st.pos ≠ [] → (∀ c ∈ st.accu.data, c ≠ '(' ∧ c ≠ ')') →
      ∃ ds, parseFrom fl st lines = some ds := by
  intro lines
  induction lines with
  | nil => intro st _ _ _; exact ⟨[], rfl⟩
  | cons l rest ih =>
    intro st hl hpos haccu
    obtain ⟨⟨st1, ds1⟩, heq, hpos1, haccu1⟩ :=
      parseLine_total fl st l (hl l (by simp)).1 (hl l (by simp)).2 hpos haccu
    obtain ⟨ds, hds⟩ := ih st1 (fun x hx => hl x (by simp [hx])) hpos1 haccu1
    exact ⟨ds1 ++ ds, by simp only [parseFrom, heq, hds]⟩

/-- Claim C8: a log containing `! Undefined control sequence.` followed by
the continuation line ending in `l.42 \\foo` yields, under the errors
interest flag, exactly one `error` diagnostic whose `line` field is 42 and
whose text names the offending token `\\foo`; and a later report of the
same undefined token within the pass is deduplicated, so the whole log
still yields exactly that one diagnostic. -/
theorem undefined_control_sequence_diagnosis :
    (parse ⟨true, false, false, false⟩
        ["! Undefined control sequence.", "l.42 \\foo"] =
      some [{ emptyDiag "error" with
        text := some "Undefined control sequence \\foo.",
        code := some "\\foo", line := some 42 }]) ∧
    (parse ⟨true, false, false, false⟩
        ["! Undefined control sequence.", "l.42 \\foo", "",
         "! Undefined control sequence.", "l.43 \\foo"] =
      some [{ emptyDiag "error" with
        text := some "Undefined control sequence \\foo.",
        code := some "\\foo", line := some 42 }]) := by decide

/-- Claim C9 counterexample: with the boxes interest flag enabled, the
overfull-box line yields exactly one diagnostic and its kind is `warning`,
not `box` (latex.py line 427 labels bad boxes `warning`). -/
theorem badbox_diag_kind_counterexample :
    Option.map (List.map Diag.kind)
      (parse ⟨false, true, false, false⟩
        ["Overfull \\hbox (12.0pt too wide) in paragraph at lines 10--12"]) =
      some ["warning"] ∧ "warning" ≠ "box" := by decide

/-- Claim C9 (amended): with the boxes interest flag enabled, the
overfull-box line yields exactly one diagnostic, with `line = 10` and
`last = 12` extracted from the at-lines range and the text truncated at the
range clause — but its kind is `warning`, not `box`; with the boxes flag
disabled, the line yields no diagnostic at all. -/
theorem badbox_line_diagnosis :
    (parse ⟨false, true, false, false⟩
        ["Overfull \\hbox (12.0pt too wide) in paragraph at lines 10--12"] =
      some [{ emptyDiag "warning" with
        text := some "Overfull \\hbox (12.0pt too wide)",
        page := some 1, line := some 10, last := some 12 }]) ∧
    (parse ⟨false, false, false, false⟩
        ["Overfull \\hbox (12.0pt too wide) in paragraph at lines 10--12"] =
      some []) := by decide

/-- Claim C10 counterexample: `parse` is not total — a log line whose
closing parentheses outnumber its opening parentheses makes `update_file`
pop the empty file stack, raising an uncaught `IndexError`. -/
theorem parse_pops_empty_stack :
    parse ⟨true, true, true, true⟩ ["))"] = none := by decide

/-- Claim C10 (amended): on every list of nonempty, parenthesis-free log
lines and every setting of the interest flags, `parse` yields a finite
diagnostic list without raising; but totality fails in general — an excess
closing parenthesis pops the empty file stack,
and an empty line reached in error mode raises on `line [0]`. -/
theorem parse_total_on_safe_lines (fl : Flags) (lines : List String)
    (h : ∀ l ∈ lines, l ≠ "" ∧ ∀ c ∈ l.data, c ≠ '(' ∧ c ≠ ')') :
    ∃ ds, parse fl lines = some ds :=
  parseFrom_total fl lines initPState h (by decide) (by decide)

/-- The safety hypotheses hold for the concrete two-line error log, so
`parse` yields on it. -/
theorem parse_total_on_safe_lines_witness :
    ∃ ds, parse ⟨true, true, true, true⟩
      ["! Undefined control sequence.", "l.42 \\foo"] = some ds :=
  parse_total_on_safe_lines ⟨true, true, true, true⟩
    ["! Undefined control sequence.", "l.42 \\foo"] (by decide)

end Latex

end Rubber
